import Mathlib

/-!
Verification development for the `easy_hooks` positional state store
(`src/lib.rs`): a generational, double-buffered, type-erased storage engine
with move-on-touch reclamation, plus its two front ends (`use_state` local
state handles and `Context` values).

Embedding conventions:
* Rust `TypeId`-keyed `anymap` storage is modelled by a `TypeTag := Nat`
  index; each typed `SecondaryMap<DefaultKey, T>` becomes a partial map
  `Key → Option Val` with `Val := Nat` standing for the stored payload.
* `slotmap` keys are naturals allocated from a monotone counter
  (`next_key`); the `DefaultKey::null()` sentinel obtained from
  `unwrap_or_default()` is modelled by absence in `keys_by_id`.
* Rust panics (`unwrap`, `expect`, `panic!`) are modelled by `Option`
  results: `none` means the operation panicked.
* `Rc<T>` cells used by `Context` are modelled by a small heap `RcHeap`
  whose addresses are the stored `Val`s, so that sharing and interior
  mutation are observable.
-/

namespace EasyHooks

/-- Payload values held in the typed tables. -/
abbrev Val := Nat

/-- Slot keys (`slotmap::DefaultKey`). -/
abbrev Key := Nat

/-- Runtime type descriptors (`TypeId` of the stored type). -/
abbrev TypeTag := Nat

/-- Identities of call-graph positions (`struct Id { id: topo::CallId }`).
`pos n` stands for an ordinary call-site-derived identity; `ctx n` stands
for the root-scoped identity produced by `Id::in_context` for the context
counter value `n`.  The identity provider contract (spec §6) guarantees
distinct positions and distinct context slots yield distinct identities,
which the two injective constructors capture. -/
inductive Id where
  | pos (n : Nat)
  | ctx (n : Nat)
deriving DecidableEq

/-- `Id::in_context`: a root-scoped identity disambiguated by the supplied
context counter (`topo::root(|| topo::call_in_slot(&context_id, Id::new))`).
The `topo` identity provider is external; per its contract distinct slot
keys yield distinct identities, modelled by the injective `ctx` constructor. -/
def Id.in_context (context_id : Nat) : Id := Id.ctx context_id

/-- Which of the two generations is current (`enum Mode { A, B }`). -/
inductive Mode where
  | A
  | B
deriving DecidableEq

/-- `Mode::reverse`. -/
def Mode.reverse : Mode → Mode
  | .A => .B
  | .B => .A

/-- One typed table (`SecondaryMap<DefaultKey, T>`). -/
abbrev Table := Key → Option Val

/-- One generation's type-erased map (`anymap::Map<dyn Any>`), keyed by the
runtime type descriptor; `none` means no table registered for that type. -/
abbrev DataMap := TypeTag → Option Table

/-- `SecondaryMap::new()`. -/
def Table.emptyTable : Table := fun _ => none

/-- `SecondaryMap::insert`. -/
def Table.insert (tbl : Table) (k : Key) (v : Val) : Table :=
  fun k' => if k' = k then some v else tbl k'

/-- `SecondaryMap::remove` (the residual map after removal). -/
def Table.removeKey (tbl : Table) (k : Key) : Table :=
  fun k' => if k' = k then none else tbl k'

/-- `anymap::Map::new()` and the result of `anymap::Map::clear`. -/
def DataMap.emptyMap : DataMap := fun _ => none

/-- `anymap::Map::insert` of a typed table at its type descriptor. -/
def DataMap.setTable (d : DataMap) (t : TypeTag) (tbl : Table) : DataMap :=
  fun t' => if t' = t then some tbl else d t'

/-- `struct Store`: two generations of type-erased tables, the current-mode
flag, the identity→slot-key index, the slot map of identities, and the
allocation counter modelling `DenseSlotMap` key allocation. -/
structure Store where
  data_a : DataMap
  data_b : DataMap
  mode : Mode
  keys_by_id : Id → Option Key
  ids : Key → Option Id
  next_key : Key

/-- `Store::new`. -/
def Store.new : Store :=
  { data_a := DataMap.emptyMap
    data_b := DataMap.emptyMap
    mode := Mode.A
    keys_by_id := fun _ => none
    ids := fun _ => none
    next_key := 0 }

/-- `Store::get_datamap`. -/
def Store.get_datamap (s : Store) (m : Mode) : DataMap :=
  match m with
  | .A => s.data_a
  | .B => s.data_b

/-- Writing back one generation's data map (the effect of mutating through
`Store::get_datamap_mut`). -/
def Store.set_datamap (s : Store) (m : Mode) (d : DataMap) : Store :=
  match m with
  | .A => { s with data_a := d }
  | .B => { s with data_b := d }

/-- `Store::get_secondarymap`. -/
def Store.get_secondarymap (s : Store) (m : Mode) (t : TypeTag) : Option Table :=
  s.get_datamap m t

/-- `Store::register_secondarymap`. -/
def Store.register_secondarymap (s : Store) (m : Mode) (t : TypeTag) : Store :=
  s.set_datamap m ((s.get_datamap m).setTable t Table.emptyTable)

/-- `Store::get_mut_secondarymap`: returns the typed table (registering an
empty one first when absent) together with the store after any registration. -/
def Store.get_mut_secondarymap (s : Store) (m : Mode) (t : TypeTag) : Table × Store :=
  match s.get_secondarymap m t with
  | some tbl => (tbl, s)
  | none => (Table.emptyTable, s.register_secondarymap m t)

/-- Writing a mutated typed table back into its generation (the write half
of mutating through the `&mut SecondaryMap` returned by
`get_mut_secondarymap`). -/
def Store.write_secondarymap (s : Store) (m : Mode) (t : TypeTag) (tbl : Table) : Store :=
  s.set_datamap m ((s.get_datamap m).setTable t tbl)

/-- `Store::sweep`: clear the stale generation's whole data map, then swap
which generation is current. -/
def Store.sweep (s : Store) : Store :=
  match s.mode with
  | .A => { s with data_b := DataMap.emptyMap, mode := Mode.B }
  | .B => { s with data_a := DataMap.emptyMap, mode := Mode.A }

/-- `Store::state_exists`. -/
def Store.state_exists (s : Store) (m : Mode) (t : TypeTag) (id : Id) : Bool :=
  match s.keys_by_id id, s.get_secondarymap m t with
  | some existing_key, some existing_secondary_map =>
      (existing_secondary_map existing_key).isSome
  | _, _ => false

/-- `Store::state_exists_with_id`. -/
def Store.state_exists_with_id (s : Store) (t : TypeTag) (id : Id) : Bool :=
  s.state_exists s.mode t id || s.state_exists s.mode.reverse t id

/-- `Store::state_marked_with_id`. -/
def Store.state_marked_with_id (s : Store) (t : TypeTag) (id : Id) : Bool :=
  s.state_exists s.mode t id || !(s.state_exists s.mode.reverse t id)

/-- `Store::remove_state_with_id`: `unwrap_or_default` yields the null key
exactly when the identity is absent from `keys_by_id`, in which case the
result is `None` and the store is untouched. -/
def Store.remove_state_with_id (s : Store) (t : TypeTag) (id : Id) : Option Val × Store :=
  match s.keys_by_id id with
  | none => (none, s)
  | some key =>
      let ts := s.get_mut_secondarymap s.mode t
      (ts.1 key, ts.2.write_secondarymap s.mode t (ts.1.removeKey key))

/-- `Store::set_state_with_id`: allocate a slot key on first write
(`self.ids.insert` plus the `keys_by_id` record), then insert into the
current generation's typed table. -/
def Store.set_state_with_id (s : Store) (t : TypeTag) (data : Val) (id : Id) : Store :=
  match s.keys_by_id id with
  | none =>
      let key := s.next_key
      let s₁ : Store :=
        { s with
          ids := fun k => if k = key then some id else s.ids k
          keys_by_id := fun i => if i = id then some key else s.keys_by_id i
          next_key := s.next_key + 1 }
      let ts := s₁.get_mut_secondarymap s₁.mode t
      ts.2.write_secondarymap s₁.mode t (ts.1.insert key data)
  | some key =>
      let ts := s.get_mut_secondarymap s.mode t
      ts.2.write_secondarymap s.mode t (ts.1.insert key data)

/-- `Store::mark_state_with_id`: with a null key (identity never written)
the body is skipped entirely; otherwise the value is removed from the stale
generation's table (`.unwrap()` panics — `none` — when absent) and inserted
into the current generation's table at the same key. -/
def Store.mark_state_with_id (s : Store) (t : TypeTag) (id : Id) : Option Store :=
  match s.keys_by_id id with
  | none => some s
  | some key =>
      let ts := s.get_mut_secondarymap s.mode.reverse t
      match ts.1 key with
      | none => none
      | some data =>
          let s₂ := ts.2.write_secondarymap s.mode.reverse t (ts.1.removeKey key)
          let ts₂ := s₂.get_mut_secondarymap s₂.mode t
          some (ts₂.2.write_secondarymap s₂.mode t (ts₂.1.insert key data))

/-- `use_state`: fetch-or-create.  The factory is modelled by the value
`data_fn` it would produce; the returned flag records whether the factory
was invoked (the `data_fn()` call in the first branch). -/
def use_state (s : Store) (t : TypeTag) (id : Id) (data_fn : Val) : Option (Store × Bool) :=
  if !(s.state_exists_with_id t id) then
    some (s.set_state_with_id t data_fn id, true)
  else if !(s.state_marked_with_id t id) then
    (s.mark_state_with_id t id).map (fun s₁ => (s₁, false))
  else
    some (s, false)

/-- `read_state_with_id`: take the value (`.expect("State does not exist.")`
panics — `none` — when absent), observe it, and set it back.  The observed
value is returned in place of applying the caller's closure to it. -/
def read_state_with_id (s : Store) (t : TypeTag) (id : Id) : Option (Val × Store) :=
  match s.remove_state_with_id t id with
  | (none, _) => none
  | (some item, s₁) => some (item, s₁.set_state_with_id t item id)

/-- `update_state_with_id`: take the value (panic — `none` — when absent),
apply the caller's mutation `func`, and set the result back. -/
def update_state_with_id (s : Store) (t : TypeTag) (id : Id) (func : Val → Val) : Option Store :=
  match s.remove_state_with_id t id with
  | (none, _) => none
  | (some item, s₁) => some (s₁.set_state_with_id t (func item) id)

/-- The heap of reference-counted cells backing `Rc<T>` context values:
addresses are allocated monotonically and cells support interior mutation. -/
structure RcHeap where
  cells : Nat → Option Val
  next : Nat

/-- The empty heap. -/
def RcHeap.emptyHeap : RcHeap := ⟨fun _ => none, 0⟩

/-- `Rc::new`: allocate a fresh shared cell holding `v`. -/
def RcHeap.alloc (h : RcHeap) (v : Val) : Nat × RcHeap :=
  (h.next, ⟨fun p => if p = h.next then some v else h.cells p, h.next + 1⟩)

/-- Dereference a shared cell. -/
def RcHeap.read (h : RcHeap) (p : Nat) : Option Val := h.cells p

/-- Interior mutation of a shared cell (e.g. through a `RefCell` inside the
`Rc`), visible to every holder of the same address. -/
def RcHeap.write (h : RcHeap) (p : Nat) (v : Val) : RcHeap :=
  ⟨fun q => if q = p then some v else h.cells q, h.next⟩

namespace Context

/-- `Context::get`: panic (`none`) when no value was ever set for the
context's identity, otherwise mark it live for this pass when needed and
read the shared value (for a context the stored `Val` is an `RcHeap`
address). -/
def get (s : Store) (t : TypeTag) (id : Id) : Option (Val × Store) :=
  if !(s.state_exists_with_id t id) then
    none
  else
    (if !(s.state_marked_with_id t id) then s.mark_state_with_id t id else some s).bind
      fun s₁ => read_state_with_id s₁ t id

/-- `Context::set`: wrap the data in a fresh shared cell (`Rc::new`) and
store its address under the context's identity. -/
def set (s : Store) (h : RcHeap) (t : TypeTag) (id : Id) (data : Val) : Store × RcHeap :=
  let ph := h.alloc data
  (s.set_state_with_id t ph.1 id, ph.2)

end Context

/-- `create_context`: read the process-wide counter, derive the root-scoped
identity from it, and increment the counter.  State-passing form: input is
the current `CONTEXT_ID` value, output is the new context's identity and the
updated counter. -/
def create_context (context_id : Nat) : Id × Nat :=
  (Id.in_context context_id, context_id + 1)

/-- The value stored for `id` at type `t` in generation `m`, looked up
through the identity→slot-key index. -/
def Store.valAt (s : Store) (m : Mode) (t : TypeTag) (k : Key) : Option Val :=
  match s.get_secondarymap m t with
  | none => none
  | some tbl => tbl k

/-- The value stored for identity `id` at type `t` in generation `m`. -/
def Store.valAtId (s : Store) (m : Mode) (t : TypeTag) (id : Id) : Option Val :=
  match s.keys_by_id id with
  | none => none
  | some k => s.valAt m t k

/-- The value stored for identity `id` at type `t` in the current generation. -/
def Store.currentVal (s : Store) (t : TypeTag) (id : Id) : Option Val :=
  s.valAtId s.mode t id

/-- Well-formedness tying slot-key allocation to the `next_key` counter:
allocated keys are below the counter, the identity→slot-key index is
injective (each `DenseSlotMap::insert` returns a fresh key), and no typed
table of either generation holds an entry at an unallocated key. -/
def Store.WF (s : Store) : Prop :=
  (∀ id k, s.keys_by_id id = some k → k < s.next_key) ∧
  (∀ id₁ id₂ k, s.keys_by_id id₁ = some k → s.keys_by_id id₂ = some k → id₁ = id₂) ∧
  (∀ m t k, s.next_key ≤ k → s.valAt m t k = none)

/-- A value of type `t` exists for `id` in generation `m` — the spec-level
reading of "a value of type T for id exists in the … generation" (§4.1),
stated directly in terms of the index and the typed tables. -/
def ExistsInGen (s : Store) (m : Mode) (t : TypeTag) (id : Id) : Prop :=
  ∃ k tbl v, s.keys_by_id id = some k ∧ s.get_secondarymap m t = some tbl ∧ tbl k = some v

/-- One caller-visible API operation of a pass (spec §6 "Caller-visible
API"): a `use_state` access, a `LocalState::get` / `LocalState::set`, or a
`Context::get` / `Context::set`, each recorded with the type and identity it
addresses.  `localSet` carries the caller's mutation of the stored value;
`useState` carries the value its factory would produce. -/
inductive ApiOp where
  | useSt (t : TypeTag) (id : Id) (d : Val)
  | localGet (t : TypeTag) (id : Id)
  | localSet (t : TypeTag) (id : Id) (f : Val → Val)
  | ctxSet (t : TypeTag) (id : Id) (v : Val)
  | ctxGet (t : TypeTag) (id : Id)

/-- The value type addressed by an API operation. -/
def ApiOp.tag : ApiOp → TypeTag
  | .useSt t _ _ => t
  | .localGet t _ => t
  | .localSet t _ _ => t
  | .ctxSet t _ _ => t
  | .ctxGet t _ => t

/-- The identity addressed by an API operation. -/
def ApiOp.ident : ApiOp → Id
  | .useSt _ id _ => id
  | .localGet _ id => id
  | .localSet _ id _ => id
  | .ctxSet _ id _ => id
  | .ctxGet _ id => id

/-- Run one API operation against the store (`none` = the operation
panicked).  `localGet`/`localSet` are `LocalState::get`/`LocalState::set`;
`ctxSet` stores a value under the context identity (`Context::set`, the heap
allocation being orthogonal to the store); `ctxGet` is `Context::get`. -/
def ApiOp.apply : ApiOp → Store → Option Store
  | .useSt t id d, s => (use_state s t id d).map Prod.fst
  | .localGet t id, s => (read_state_with_id s t id).map Prod.snd
  | .localSet t id f, s => update_state_with_id s t id f
  | .ctxSet t id v, s => some (s.set_state_with_id t v id)
  | .ctxGet t id, s => (Context.get s t id).map Prod.snd

/-- Run a list of API operations left to right, propagating panics. -/
def applyOps : List ApiOp → Store → Option Store
  | [], s => some s
  | op :: ops, s => (op.apply s).bind (applyOps ops)

/-- The operation touches the given identity/type pair. -/
def ApiOp.touches (op : ApiOp) (t : TypeTag) (id : Id) : Prop :=
  op.tag = t ∧ op.ident = id

/-- One full pass as far as a single identity/type pair is concerned: the
`sweep()` ending the previous pass followed by the pass's `use_state`
access for the pair.  The result is `none` if the access panicked or if the
factory was invoked (i.e. the stored value was re-created). -/
def passRound (t : TypeTag) (id : Id) (d : Val) (s : Store) : Option Store :=
  match use_state (Store.sweep s) t id d with
  | some (s', false) => some s'
  | _ => none

/-- `n` consecutive passes, each accessing the identity/type pair once;
`some` means every access succeeded without ever re-invoking the factory. -/
def passes (t : TypeTag) (id : Id) (d : Val) : Nat → Store → Option Store
  | 0, s => some s
  | n + 1, s => (passRound t id d s).bind (passes t id d n)

theorem Mode.reverse_ne (m : Mode) : m.reverse ≠ m := by
  cases m <;> decide

theorem Mode.ne_reverse (m : Mode) : m ≠ m.reverse := by
  cases m <;> decide

theorem Mode.eq_reverse_of_ne {m m' : Mode} (h : ¬m = m') : m = m'.reverse := by
  cases m <;> cases m' <;> simp_all [Mode.reverse]

theorem Mode.reverse_reverse (m : Mode) : m.reverse.reverse = m := by
  cases m <;> rfl

theorem Store.get_set_datamap (s : Store) (m m' : Mode) (d : DataMap) :
    (s.set_datamap m d).get_datamap m' = if m' = m then d else s.get_datamap m' := by
  cases m <;> cases m' <;> simp [Store.set_datamap, Store.get_datamap]

theorem Store.mode_set_datamap (s : Store) (m : Mode) (d : DataMap) :
    (s.set_datamap m d).mode = s.mode := by cases m <;> rfl

theorem Store.keys_set_datamap (s : Store) (m : Mode) (d : DataMap) :
    (s.set_datamap m d).keys_by_id = s.keys_by_id := by cases m <;> rfl

theorem Store.ids_set_datamap (s : Store) (m : Mode) (d : DataMap) :
    (s.set_datamap m d).ids = s.ids := by cases m <;> rfl

theorem Store.next_set_datamap (s : Store) (m : Mode) (d : DataMap) :
    (s.set_datamap m d).next_key = s.next_key := by cases m <;> rfl

theorem Store.get_secondarymap_write (s : Store) (m m' : Mode) (t t' : TypeTag) (tbl : Table) :
    (s.write_secondarymap m t tbl).get_secondarymap m' t' =
      if m' = m ∧ t' = t then some tbl else s.get_secondarymap m' t' := by
  simp only [Store.write_secondarymap, Store.get_secondarymap, Store.get_set_datamap]
  by_cases hm : m' = m
  · subst hm
    simp [DataMap.setTable]
  · simp [hm]

theorem Store.valAt_write (s : Store) (m m' : Mode) (t t' : TypeTag) (tbl : Table) (k : Key) :
    (s.write_secondarymap m t tbl).valAt m' t' k =
      if m' = m ∧ t' = t then tbl k else s.valAt m' t' k := by
  simp only [Store.valAt, Store.get_secondarymap_write]
  split_ifs with h
  · rfl
  · rfl

theorem Store.mode_write (s : Store) (m : Mode) (t : TypeTag) (tbl : Table) :
    (s.write_secondarymap m t tbl).mode = s.mode := Store.mode_set_datamap ..

theorem Store.keys_write (s : Store) (m : Mode) (t : TypeTag) (tbl : Table) :
    (s.write_secondarymap m t tbl).keys_by_id = s.keys_by_id := Store.keys_set_datamap ..

theorem Store.ids_write (s : Store) (m : Mode) (t : TypeTag) (tbl : Table) :
    (s.write_secondarymap m t tbl).ids = s.ids := Store.ids_set_datamap ..

theorem Store.next_write (s : Store) (m : Mode) (t : TypeTag) (tbl : Table) :
    (s.write_secondarymap m t tbl).next_key = s.next_key := Store.next_set_datamap ..

theorem Store.register_eq_write (s : Store) (m : Mode) (t : TypeTag) :
    s.register_secondarymap m t = s.write_secondarymap m t Table.emptyTable := rfl

theorem Store.get_mut_fst (s : Store) (m : Mode) (t : TypeTag) (k : Key) :
    ((s.get_mut_secondarymap m t).1) k = s.valAt m t k := by
  cases h : s.get_secondarymap m t <;>
    simp [Store.get_mut_secondarymap, h, Store.valAt, Table.emptyTable]

theorem Store.valAt_get_mut_snd (s : Store) (m : Mode) (t : TypeTag) (m' : Mode) (t' : TypeTag)
    (k : Key) : ((s.get_mut_secondarymap m t).2).valAt m' t' k = s.valAt m' t' k := by
  cases h : s.get_secondarymap m t with
  | some tbl => simp [Store.get_mut_secondarymap, h]
  | none =>
      simp only [Store.get_mut_secondarymap, h, Store.register_eq_write, Store.valAt_write]
      split_ifs with hc
      · obtain ⟨hm, ht⟩ := hc
        subst hm; subst ht
        simp [Store.valAt, h, Table.emptyTable]
      · rfl

theorem Store.mode_get_mut (s : Store) (m : Mode) (t : TypeTag) :
    ((s.get_mut_secondarymap m t).2).mode = s.mode := by
  cases h : s.get_secondarymap m t <;>
    simp [Store.get_mut_secondarymap, h, Store.register_eq_write, Store.mode_write]

theorem Store.keys_get_mut (s : Store) (m : Mode) (t : TypeTag) :
    ((s.get_mut_secondarymap m t).2).keys_by_id = s.keys_by_id := by
  cases h : s.get_secondarymap m t <;>
    simp [Store.get_mut_secondarymap, h, Store.register_eq_write, Store.keys_write]

theorem Store.ids_get_mut (s : Store) (m : Mode) (t : TypeTag) :
    ((s.get_mut_secondarymap m t).2).ids = s.ids := by
  cases h : s.get_secondarymap m t <;>
    simp [Store.get_mut_secondarymap, h, Store.register_eq_write, Store.ids_write]

theorem Store.next_get_mut (s : Store) (m : Mode) (t : TypeTag) :
    ((s.get_mut_secondarymap m t).2).next_key = s.next_key := by
  cases h : s.get_secondarymap m t <;>
    simp [Store.get_mut_secondarymap, h, Store.register_eq_write, Store.next_write]

theorem Store.mode_sweep (s : Store) : (s.sweep).mode = s.mode.reverse := by
  cases h : s.mode <;> simp [Store.sweep, h, Mode.reverse]

theorem Store.keys_sweep (s : Store) : (s.sweep).keys_by_id = s.keys_by_id := by
  cases h : s.mode <;> simp [Store.sweep, h]

theorem Store.ids_sweep (s : Store) : (s.sweep).ids = s.ids := by
  cases h : s.mode <;> simp [Store.sweep, h]

theorem Store.next_sweep (s : Store) : (s.sweep).next_key = s.next_key := by
  cases h : s.mode <;> simp [Store.sweep, h]

theorem Store.valAt_sweep (s : Store) (m : Mode) (t : TypeTag) (k : Key) :
    (s.sweep).valAt m t k = if m = s.mode then s.valAt m t k else none := by
  cases h : s.mode <;> cases m <;>
    simp [Store.sweep, h, Store.valAt, Store.get_secondarymap, Store.get_datamap,
      DataMap.emptyMap]

theorem Store.valAt_update_index (s : Store) (kb : Id → Option Key) (i : Key → Option Id)
    (n : Key) (m : Mode) (t : TypeTag) (k : Key) :
    ({ s with keys_by_id := kb, ids := i, next_key := n } : Store).valAt m t k =
      s.valAt m t k := by
  cases m <;> rfl

theorem Store.mode_update_index (s : Store) (kb : Id → Option Key) (i : Key → Option Id)
    (n : Key) : ({ s with keys_by_id := kb, ids := i, next_key := n } : Store).mode = s.mode :=
  rfl

theorem Store.valAt_set_some (s : Store) (t : TypeTag) (v : Val) (id : Id) (key : Key)
    (hk : s.keys_by_id id = some key) (m : Mode) (t' : TypeTag) (k : Key) :
    (s.set_state_with_id t v id).valAt m t' k =
      if m = s.mode ∧ t' = t ∧ k = key then some v else s.valAt m t' k := by
  simp only [Store.set_state_with_id, hk, Store.valAt_write, Table.insert,
    Store.get_mut_fst, Store.valAt_get_mut_snd]
  by_cases hm : m = s.mode
  · by_cases ht : t' = t
    · subst hm; subst ht
      by_cases hkk : k = key <;> simp [hkk]
    · simp [ht]
  · simp [hm]

theorem Store.valAt_set_none (s : Store) (t : TypeTag) (v : Val) (id : Id)
    (hk : s.keys_by_id id = none) (m : Mode) (t' : TypeTag) (k : Key) :
    (s.set_state_with_id t v id).valAt m t' k =
      if m = s.mode ∧ t' = t ∧ k = s.next_key then some v else s.valAt m t' k := by
  simp only [Store.set_state_with_id, hk, Store.valAt_write, Table.insert,
    Store.get_mut_fst, Store.valAt_get_mut_snd, Store.valAt_update_index,
    Store.mode_update_index]
  by_cases hm : m = s.mode
  · by_cases ht : t' = t
    · subst hm; subst ht
      by_cases hkk : k = s.next_key <;> simp [hkk]
    · simp [ht]
  · simp [hm]

theorem Store.mode_set_state (s : Store) (t : TypeTag) (v : Val) (id : Id) :
    (s.set_state_with_id t v id).mode = s.mode := by
  cases hk : s.keys_by_id id <;>
    simp only [Store.set_state_with_id, hk, Store.mode_write, Store.mode_get_mut,
      Store.mode_update_index]

theorem Store.keys_set_state_some (s : Store) (t : TypeTag) (v : Val) (id : Id) (key : Key)
    (hk : s.keys_by_id id = some key) :
    (s.set_state_with_id t v id).keys_by_id = s.keys_by_id := by
  simp only [Store.set_state_with_id, hk, Store.keys_write, Store.keys_get_mut]

theorem Store.keys_set_state_none (s : Store) (t : TypeTag) (v : Val) (id : Id)
    (hk : s.keys_by_id id = none) :
    (s.set_state_with_id t v id).keys_by_id =
      fun i => if i = id then some s.next_key else s.keys_by_id i := by
  simp only [Store.set_state_with_id, hk, Store.keys_write, Store.keys_get_mut]

theorem Store.next_set_state_some (s : Store) (t : TypeTag) (v : Val) (id : Id) (key : Key)
    (hk : s.keys_by_id id = some key) :
    (s.set_state_with_id t v id).next_key = s.next_key := by
  simp only [Store.set_state_with_id, hk, Store.next_write, Store.next_get_mut]

theorem Store.next_set_state_none (s : Store) (t : TypeTag) (v : Val) (id : Id)
    (hk : s.keys_by_id id = none) :
    (s.set_state_with_id t v id).next_key = s.next_key + 1 := by
  simp only [Store.set_state_with_id, hk, Store.next_write, Store.next_get_mut]

theorem Store.remove_fst (s : Store) (t : TypeTag) (id : Id) :
    (s.remove_state_with_id t id).1 = s.valAtId s.mode t id := by
  cases hk : s.keys_by_id id <;>
    simp [Store.remove_state_with_id, hk, Store.valAtId, Store.get_mut_fst]

theorem Store.valAt_remove (s : Store) (t : TypeTag) (id : Id) (m : Mode) (t' : TypeTag)
    (k : Key) :
    ((s.remove_state_with_id t id).2).valAt m t' k =
      if m = s.mode ∧ t' = t ∧ s.keys_by_id id = some k then none else s.valAt m t' k := by
  cases hk : s.keys_by_id id with
  | none => simp [Store.remove_state_with_id, hk]
  | some key =>
      simp only [Store.remove_state_with_id, hk, Store.valAt_write, Table.removeKey,
        Store.get_mut_fst, Store.valAt_get_mut_snd, Option.some.injEq]
      by_cases hm : m = s.mode
      · by_cases ht : t' = t
        · subst hm; subst ht
          by_cases hkk : k = key
          · subst hkk; simp
          · have hkk' : key ≠ k := fun h => hkk h.symm
            simp [hkk, hkk']
        · simp [ht]
      · simp [hm]

theorem Store.keys_remove (s : Store) (t : TypeTag) (id : Id) :
    ((s.remove_state_with_id t id).2).keys_by_id = s.keys_by_id := by
  cases hk : s.keys_by_id id <;>
    simp [Store.remove_state_with_id, hk, Store.keys_write, Store.keys_get_mut]

theorem Store.mode_remove (s : Store) (t : TypeTag) (id : Id) :
    ((s.remove_state_with_id t id).2).mode = s.mode := by
  cases hk : s.keys_by_id id <;>
    simp [Store.remove_state_with_id, hk, Store.mode_write, Store.mode_get_mut]

theorem Store.next_remove (s : Store) (t : TypeTag) (id : Id) :
    ((s.remove_state_with_id t id).2).next_key = s.next_key := by
  cases hk : s.keys_by_id id <;>
    simp [Store.remove_state_with_id, hk, Store.next_write, Store.next_get_mut]

theorem Store.mark_of_none_key (s : Store) (t : TypeTag) (id : Id)
    (hk : s.keys_by_id id = none) : s.mark_state_with_id t id = some s := by
  simp [Store.mark_state_with_id, hk]

theorem Store.mark_isNone_iff (s : Store) (t : TypeTag) (id : Id) :
    s.mark_state_with_id t id = none ↔
      ∃ k, s.keys_by_id id = some k ∧ s.valAt s.mode.reverse t k = none := by
  cases hk : s.keys_by_id id with
  | none => simp [Store.mark_state_with_id, hk]
  | some key =>
      simp only [Store.mark_state_with_id, hk, Store.get_mut_fst]
      cases hv : s.valAt s.mode.reverse t key <;> simp [hv, hk]

theorem Store.mark_spec (s : Store) (t : TypeTag) (id : Id) (key : Key) (v : Val)
    (hk : s.keys_by_id id = some key) (hv : s.valAt s.mode.reverse t key = some v) :
    ∃ s', s.mark_state_with_id t id = some s' ∧
      (∀ m t' k, s'.valAt m t' k =
        if m = s.mode ∧ t' = t ∧ k = key then some v
        else if m = s.mode.reverse ∧ t' = t ∧ k = key then none
        else s.valAt m t' k) ∧
      s'.keys_by_id = s.keys_by_id ∧ s'.mode = s.mode ∧ s'.next_key = s.next_key := by
  simp only [Store.mark_state_with_id, hk, Store.get_mut_fst, hv]
  refine ⟨_, rfl, ?_, ?_, ?_, ?_⟩
  · intro m t' k
    simp only [Store.valAt_write, Table.insert, Table.removeKey, Store.get_mut_fst,
      Store.valAt_get_mut_snd, Store.mode_write, Store.mode_get_mut]
    by_cases hm : m = s.mode
    · subst hm
      by_cases ht : t' = t
      · subst ht
        by_cases hkk : k = key
        · subst hkk
          simp [Mode.ne_reverse]
        · simp [hkk, Mode.ne_reverse, Store.valAt_write, Store.valAt_get_mut_snd,
            Store.get_mut_fst, Table.removeKey]
      · simp [ht, Store.valAt_write, Store.valAt_get_mut_snd]
    · have hmr : m = s.mode.reverse := Mode.eq_reverse_of_ne hm
      subst hmr
      by_cases ht : t' = t
      · subst ht
        by_cases hkk : k = key
        · subst hkk
          simp [Mode.reverse_ne, Store.valAt_write, Store.valAt_get_mut_snd,
            Store.get_mut_fst, Table.removeKey]
        · simp [hkk, Mode.reverse_ne, Store.valAt_write, Store.valAt_get_mut_snd,
            Store.get_mut_fst, Table.removeKey]
      · simp [ht, Mode.reverse_ne, Store.valAt_write, Store.valAt_get_mut_snd]
  · simp [Store.keys_write, Store.keys_get_mut]
  · simp [Store.mode_write, Store.mode_get_mut]
  · simp [Store.next_write, Store.next_get_mut]

theorem Store.state_exists_eq (s : Store) (m : Mode) (t : TypeTag) (id : Id) :
    s.state_exists m t id = (s.valAtId m t id).isSome := by
  cases hk : s.keys_by_id id with
  | none => simp [Store.state_exists, Store.valAtId, hk]
  | some k =>
      cases ht : s.get_secondarymap m t <;>
        simp [Store.state_exists, Store.valAtId, Store.valAt, hk, ht]

theorem existsInGen_iff (s : Store) (m : Mode) (t : TypeTag) (id : Id) :
    ExistsInGen s m t id ↔ s.state_exists m t id = true := by
  constructor
  · rintro ⟨k, tbl, v, hk, htbl, hv⟩
    simp [Store.state_exists, hk, htbl, hv]
  · intro h
    rw [Store.state_exists_eq] at h
    unfold Store.valAtId at h
    cases hk : s.keys_by_id id with
    | none => simp [hk] at h
    | some k =>
        rw [hk] at h
        unfold Store.valAt at h
        cases htbl : s.get_secondarymap m t with
        | none => simp [htbl] at h
        | some tbl =>
            rw [htbl] at h
            cases hv : tbl k with
            | none => simp [hv] at h
            | some v => exact ⟨k, tbl, v, hk, htbl, hv⟩

theorem Store.currentVal_set (s : Store) (t : TypeTag) (v : Val) (id : Id) :
    (s.set_state_with_id t v id).currentVal t id = some v := by
  cases hk : s.keys_by_id id with
  | none =>
      simp [Store.currentVal, Store.valAtId, Store.keys_set_state_none s t v id hk,
        Store.mode_set_state, Store.valAt_set_none s t v id hk]
  | some key =>
      simp [Store.currentVal, Store.valAtId, Store.keys_set_state_some s t v id key hk,
        Store.mode_set_state, Store.valAt_set_some s t v id key hk, hk]

theorem Store.valAtId_none_key (s : Store) (m : Mode) (t : TypeTag) (id : Id)
    (hk : s.keys_by_id id = none) : s.valAtId m t id = none := by
  simp [Store.valAtId, hk]

theorem Store.valAtId_some_key (s : Store) (m : Mode) (t : TypeTag) (id : Id) (k : Key)
    (hk : s.keys_by_id id = some k) : s.valAtId m t id = s.valAt m t k := by
  simp [Store.valAtId, hk]

theorem Store.valAtId_set_frame (s : Store) (t : TypeTag) (v : Val) (id : Id)
    (hwf : s.WF) (m : Mode) (t' : TypeTag) (id' : Id)
    (hne : ¬(m = s.mode ∧ t' = t ∧ id' = id)) :
    (s.set_state_with_id t v id).valAtId m t' id' = s.valAtId m t' id' := by
  obtain ⟨h1, h2, h3⟩ := hwf
  cases hk : s.keys_by_id id with
  | none =>
      have hkeys := Store.keys_set_state_none s t v id hk
      by_cases hid : id' = id
      · subst hid
        have hknew : (s.set_state_with_id t v id').keys_by_id id' = some s.next_key := by
          rw [hkeys]; simp
        rw [Store.valAtId_some_key _ m t' id' s.next_key hknew,
          Store.valAt_set_none s t v id' hk m t' s.next_key,
          Store.valAtId_none_key s m t' id' hk,
          if_neg (fun hc => hne ⟨hc.1, hc.2.1, rfl⟩)]
        exact h3 m t' s.next_key le_rfl
      · have hknew : (s.set_state_with_id t v id).keys_by_id id' = s.keys_by_id id' := by
          rw [hkeys]; simp [hid]
        cases hk' : s.keys_by_id id' with
        | none =>
            rw [Store.valAtId_none_key _ m t' id' (hknew.trans hk'),
              Store.valAtId_none_key s m t' id' hk']
        | some k' =>
            rw [Store.valAtId_some_key _ m t' id' k' (hknew.trans hk'),
              Store.valAt_set_none s t v id hk m t' k',
              Store.valAtId_some_key s m t' id' k' hk']
            have hcond : ¬(m = s.mode ∧ t' = t ∧ k' = s.next_key) := by
              intro hc
              exact absurd (hc.2.2 ▸ h1 id' k' hk') (lt_irrefl _)
            rw [if_neg hcond]
  | some key =>
      have hkeys := Store.keys_set_state_some s t v id key hk
      cases hk' : s.keys_by_id id' with
      | none =>
          rw [Store.valAtId_none_key _ m t' id' (by rw [hkeys]; exact hk'),
            Store.valAtId_none_key s m t' id' hk']
      | some k' =>
          rw [Store.valAtId_some_key _ m t' id' k' (by rw [hkeys]; exact hk'),
            Store.valAt_set_some s t v id key hk m t' k',
            Store.valAtId_some_key s m t' id' k' hk']
          have hcond : ¬(m = s.mode ∧ t' = t ∧ k' = key) := by
            intro hc
            exact hne ⟨hc.1, hc.2.1, h2 id' id key (hc.2.2 ▸ hk') hk⟩
          rw [if_neg hcond]

theorem Store.valAtId_remove_same (s : Store) (t : TypeTag) (id : Id) :
    ((s.remove_state_with_id t id).2).valAtId s.mode t id = none := by
  cases hk : s.keys_by_id id with
  | none => simp [Store.valAtId, Store.keys_remove, hk]
  | some key =>
      simp [Store.valAtId, Store.keys_remove, hk, Store.valAt_remove]

theorem Store.valAtId_remove_frame (s : Store) (t : TypeTag) (id : Id)
    (hwf : s.WF) (m : Mode) (t' : TypeTag) (id' : Id)
    (hne : ¬(m = s.mode ∧ t' = t ∧ id' = id)) :
    ((s.remove_state_with_id t id).2).valAtId m t' id' = s.valAtId m t' id' := by
  obtain ⟨h1, h2, h3⟩ := hwf
  have hkeys := Store.keys_remove s t id
  cases hk' : s.keys_by_id id' with
  | none =>
      rw [Store.valAtId_none_key _ m t' id' (by rw [hkeys]; exact hk'),
        Store.valAtId_none_key s m t' id' hk']
  | some k' =>
      rw [Store.valAtId_some_key _ m t' id' k' (by rw [hkeys]; exact hk'),
        Store.valAt_remove s t id m t' k',
        Store.valAtId_some_key s m t' id' k' hk']
      have hcond : ¬(m = s.mode ∧ t' = t ∧ s.keys_by_id id = some k') := by
        intro hc
        exact hne ⟨hc.1, hc.2.1, (h2 id id' k' hc.2.2 hk').symm⟩
      rw [if_neg hcond]

theorem Store.mark_some_spec (s : Store) (t : TypeTag) (id : Id) (s' : Store)
    (hmk : s.mark_state_with_id t id = some s') :
    (s.keys_by_id id = none ∧ s' = s) ∨
    (∃ key v, s.keys_by_id id = some key ∧ s.valAt s.mode.reverse t key = some v ∧
      (∀ m t' k, s'.valAt m t' k =
        if m = s.mode ∧ t' = t ∧ k = key then some v
        else if m = s.mode.reverse ∧ t' = t ∧ k = key then none
        else s.valAt m t' k) ∧
      s'.keys_by_id = s.keys_by_id ∧ s'.mode = s.mode ∧ s'.next_key = s.next_key) := by
  cases hk : s.keys_by_id id with
  | none =>
      left
      have h := Store.mark_of_none_key s t id hk
      rw [hmk] at h
      exact ⟨rfl, Option.some.inj h⟩
  | some key =>
      right
      cases hv : s.valAt s.mode.reverse t key with
      | none =>
          exfalso
          have h := (Store.mark_isNone_iff s t id).mpr ⟨key, hk, hv⟩
          rw [hmk] at h
          exact Option.noConfusion h
      | some v =>
          obtain ⟨s'', hs'', hval, hkeys, hmode, hnext⟩ := Store.mark_spec s t id key v hk hv
          rw [hmk] at hs''
          obtain rfl := Option.some.inj hs''
          exact ⟨key, v, rfl, hv, hval, hkeys, hmode, hnext⟩

theorem Store.valAtId_sweep (s : Store) (m : Mode) (t : TypeTag) (id : Id) :
    (s.sweep).valAtId m t id = if m = s.mode then s.valAtId m t id else none := by
  cases hk : s.keys_by_id id with
  | none =>
      rw [Store.valAtId_none_key _ m t id (by rw [Store.keys_sweep]; exact hk),
        Store.valAtId_none_key s m t id hk]
      simp
  | some k =>
      rw [Store.valAtId_some_key _ m t id k (by rw [Store.keys_sweep]; exact hk),
        Store.valAt_sweep, Store.valAtId_some_key s m t id k hk]

theorem Store.WF_new : Store.new.WF := by
  refine ⟨?_, ?_, ?_⟩
  · intro id k h
    simp [Store.new] at h
  · intro id₁ id₂ k h
    simp [Store.new] at h
  · intro m t k _
    cases m <;>
      simp [Store.new, Store.valAt, Store.get_secondarymap, Store.get_datamap,
        DataMap.emptyMap]

theorem Store.WF_set (s : Store) (t : TypeTag) (v : Val) (id : Id) (hwf : s.WF) :
    (s.set_state_with_id t v id).WF := by
  obtain ⟨h1, h2, h3⟩ := hwf
  cases hk : s.keys_by_id id with
  | some key =>
      have hkeys := Store.keys_set_state_some s t v id key hk
      have hnext := Store.next_set_state_some s t v id key hk
      refine ⟨?_, ?_, ?_⟩
      · intro i k h
        rw [hkeys] at h
        rw [hnext]
        exact h1 i k h
      · intro i₁ i₂ k hh₁ hh₂
        rw [hkeys] at hh₁ hh₂
        exact h2 i₁ i₂ k hh₁ hh₂
      · intro m t' k hle
        rw [hnext] at hle
        rw [Store.valAt_set_some s t v id key hk m t' k]
        have hcond : ¬(m = s.mode ∧ t' = t ∧ k = key) := by
          rintro ⟨-, -, rfl⟩
          exact absurd (h1 id k hk) (Nat.not_lt.mpr hle)
        rw [if_neg hcond]
        exact h3 m t' k hle
  | none =>
      have hkeys := Store.keys_set_state_none s t v id hk
      have hnext := Store.next_set_state_none s t v id hk
      refine ⟨?_, ?_, ?_⟩
      · intro i k h
        rw [hkeys] at h
        rw [hnext]
        by_cases hi : i = id
        · simp [hi] at h
          rw [h]
          exact Nat.lt_succ_self k
        · simp [hi] at h
          exact Nat.lt_succ_of_lt (h1 i k h)
      · intro i₁ i₂ k hh₁ hh₂
        rw [hkeys] at hh₁ hh₂
        by_cases hi₁ : i₁ = id <;> by_cases hi₂ : i₂ = id
        · rw [hi₁, hi₂]
        · exfalso
          simp [hi₁] at hh₁
          simp [hi₂] at hh₂
          have hlt := h1 i₂ k hh₂
          rw [hh₁] at hlt
          exact Nat.lt_irrefl k hlt
        · exfalso
          simp [hi₁] at hh₁
          simp [hi₂] at hh₂
          have hlt := h1 i₁ k hh₁
          rw [hh₂] at hlt
          exact Nat.lt_irrefl k hlt
        · simp [hi₁] at hh₁
          simp [hi₂] at hh₂
          exact h2 i₁ i₂ k hh₁ hh₂
      · intro m t' k hle
        rw [hnext] at hle
        rw [Store.valAt_set_none s t v id hk m t' k]
        have hcond : ¬(m = s.mode ∧ t' = t ∧ k = s.next_key) := by
          rintro ⟨-, -, hknk⟩
          rw [hknk] at hle
          exact Nat.not_succ_le_self s.next_key hle
        rw [if_neg hcond]
        exact h3 m t' k (Nat.le_of_succ_le hle)

theorem Store.WF_remove (s : Store) (t : TypeTag) (id : Id) (hwf : s.WF) :
    ((s.remove_state_with_id t id).2).WF := by
  obtain ⟨h1, h2, h3⟩ := hwf
  refine ⟨?_, ?_, ?_⟩
  · intro i k h
    rw [Store.keys_remove] at h
    rw [Store.next_remove]
    exact h1 i k h
  · intro i₁ i₂ k hh₁ hh₂
    rw [Store.keys_remove] at hh₁ hh₂
    exact h2 i₁ i₂ k hh₁ hh₂
  · intro m t' k hle
    rw [Store.next_remove] at hle
    rw [Store.valAt_remove]
    split_ifs with hc
    · rfl
    · exact h3 m t' k hle

theorem Store.WF_mark (s : Store) (t : TypeTag) (id : Id) (s' : Store) (hwf : s.WF)
    (hmk : s.mark_state_with_id t id = some s') : s'.WF := by
  obtain ⟨h1, h2, h3⟩ := hwf
  rcases Store.mark_some_spec s t id s' hmk with ⟨-, rfl⟩ |
    ⟨key, v, hk, hv, hval, hkeys, hmode, hnext⟩
  · exact ⟨h1, h2, h3⟩
  · refine ⟨?_, ?_, ?_⟩
    · intro i k h
      rw [hkeys] at h
      rw [hnext]
      exact h1 i k h
    · intro i₁ i₂ k hh₁ hh₂
      rw [hkeys] at hh₁ hh₂
      exact h2 i₁ i₂ k hh₁ hh₂
    · intro m t' k hle
      rw [hnext] at hle
      rw [hval]
      have hkey := h1 id key hk
      have hc1 : ¬(m = s.mode ∧ t' = t ∧ k = key) := by
        rintro ⟨-, -, hknk⟩
        rw [hknk] at hle
        exact absurd hkey (Nat.not_lt.mpr hle)
      rw [if_neg hc1]
      split_ifs with hc2
      · rfl
      · exact h3 m t' k hle

theorem Store.WF_sweep (s : Store) (hwf : s.WF) : (s.sweep).WF := by
  obtain ⟨h1, h2, h3⟩ := hwf
  refine ⟨?_, ?_, ?_⟩
  · intro i k h
    rw [Store.keys_sweep] at h
    rw [Store.next_sweep]
    exact h1 i k h
  · intro i₁ i₂ k hh₁ hh₂
    rw [Store.keys_sweep] at hh₁ hh₂
    exact h2 i₁ i₂ k hh₁ hh₂
  · intro m t k hle
    rw [Store.next_sweep] at hle
    rw [Store.valAt_sweep]
    split_ifs with hc
    · exact h3 m t k hle
    · rfl

theorem Store.state_exists_false_of (s : Store) (m : Mode) (t : TypeTag) (id : Id)
    (h : s.valAtId m t id = none) : s.state_exists m t id = false := by
  rw [Store.state_exists_eq, h]
  rfl

theorem Store.state_exists_true_of (s : Store) (m : Mode) (t : TypeTag) (id : Id) (v : Val)
    (h : s.valAtId m t id = some v) : s.state_exists m t id = true := by
  rw [Store.state_exists_eq, h]
  rfl

theorem use_state_of_current (s : Store) (t : TypeTag) (id : Id) (d : Val) (v : Val)
    (hv : s.valAtId s.mode t id = some v) :
    use_state s t id d = some (s, false) := by
  have hcur := Store.state_exists_true_of s s.mode t id v hv
  have hex : s.state_exists_with_id t id = true := by
    simp [Store.state_exists_with_id, hcur]
  have hmk : s.state_marked_with_id t id = true := by
    simp [Store.state_marked_with_id, hcur]
  simp [use_state, hex, hmk]

theorem use_state_of_absent (s : Store) (t : TypeTag) (id : Id) (d : Val)
    (hcur : s.valAtId s.mode t id = none) (hst : s.valAtId s.mode.reverse t id = none) :
    use_state s t id d = some (s.set_state_with_id t d id, true) := by
  have hex : s.state_exists_with_id t id = false := by
    simp [Store.state_exists_with_id, Store.state_exists_false_of s s.mode t id hcur,
      Store.state_exists_false_of s s.mode.reverse t id hst]
  simp [use_state, hex]

theorem use_state_of_stale (s : Store) (t : TypeTag) (id : Id) (d : Val) (key : Key) (v : Val)
    (hk : s.keys_by_id id = some key)
    (hcur : s.valAt s.mode t key = none) (hst : s.valAt s.mode.reverse t key = some v) :
    ∃ s', use_state s t id d = some (s', false) ∧
      (∀ m t' k, s'.valAt m t' k =
        if m = s.mode ∧ t' = t ∧ k = key then some v
        else if m = s.mode.reverse ∧ t' = t ∧ k = key then none
        else s.valAt m t' k) ∧
      s'.keys_by_id = s.keys_by_id ∧ s'.mode = s.mode ∧ s'.next_key = s.next_key := by
  have hcur' : s.valAtId s.mode t id = none := by
    rw [Store.valAtId_some_key s s.mode t id key hk]
    exact hcur
  have hst' : s.valAtId s.mode.reverse t id = some v := by
    rw [Store.valAtId_some_key s s.mode.reverse t id key hk]
    exact hst
  have hexc := Store.state_exists_false_of s s.mode t id hcur'
  have hexs := Store.state_exists_true_of s s.mode.reverse t id v hst'
  have hex : s.state_exists_with_id t id = true := by
    simp [Store.state_exists_with_id, hexs]
  have hmkd : s.state_marked_with_id t id = false := by
    simp [Store.state_marked_with_id, hexc, hexs]
  obtain ⟨s', hs', hval, hkeys, hmode, hnext⟩ := Store.mark_spec s t id key v hk hst
  refine ⟨s', ?_, hval, hkeys, hmode, hnext⟩
  simp [use_state, hex, hmkd, hs']

theorem read_state_none (s : Store) (t : TypeTag) (id : Id)
    (h : s.valAtId s.mode t id = none) : read_state_with_id s t id = none := by
  rcases hrm : s.remove_state_with_id t id with ⟨r, s₁⟩
  have hr : r = none := by
    have hf := Store.remove_fst s t id
    rw [hrm] at hf
    simpa [h] using hf
  simp [read_state_with_id, hrm, hr]

theorem update_state_none (s : Store) (t : TypeTag) (id : Id) (f : Val → Val)
    (h : s.valAtId s.mode t id = none) : update_state_with_id s t id f = none := by
  rcases hrm : s.remove_state_with_id t id with ⟨r, s₁⟩
  have hr : r = none := by
    have hf := Store.remove_fst s t id
    rw [hrm] at hf
    simpa [h] using hf
  simp [update_state_with_id, hrm, hr]

theorem remove_snd_spec (s : Store) (t : TypeTag) (id : Id) (key : Key)
    (hk : s.keys_by_id id = some key) (r : Option Val) (s₁ : Store)
    (hrm : s.remove_state_with_id t id = (r, s₁)) :
    (∀ m t' k, s₁.valAt m t' k =
      if m = s.mode ∧ t' = t ∧ k = key then none else s.valAt m t' k) ∧
    s₁.keys_by_id = s.keys_by_id ∧ s₁.mode = s.mode ∧ s₁.next_key = s.next_key := by
  refine ⟨?_, ?_, ?_, ?_⟩
  · intro m t' k
    have hA := Store.valAt_remove s t id m t' k
    rw [hrm] at hA
    rw [hA, hk]
    by_cases hm : m = s.mode
    · by_cases ht : t' = t
      · by_cases hkk : k = key
        · simp [hm, ht, hkk]
        · have : ¬key = k := fun hh => hkk hh.symm
          simp [hm, ht, hkk, this]
      · simp [ht]
    · simp [hm]
  · have hA := Store.keys_remove s t id
    rw [hrm] at hA
    exact hA
  · have hA := Store.mode_remove s t id
    rw [hrm] at hA
    exact hA
  · have hA := Store.next_remove s t id
    rw [hrm] at hA
    exact hA

theorem read_state_spec (s : Store) (t : TypeTag) (id : Id) (key : Key) (v : Val)
    (hk : s.keys_by_id id = some key) (hv : s.valAt s.mode t key = some v) :
    ∃ s', read_state_with_id s t id = some (v, s') ∧
      (∀ m t' k, s'.valAt m t' k = s.valAt m t' k) ∧
      s'.keys_by_id = s.keys_by_id ∧ s'.mode = s.mode ∧ s'.next_key = s.next_key := by
  rcases hrm : s.remove_state_with_id t id with ⟨r, s₁⟩
  have hr : r = some v := by
    have hf := Store.remove_fst s t id
    rw [hrm] at hf
    simpa [Store.valAtId_some_key s s.mode t id key hk, hv] using hf
  obtain ⟨hval1, hkeys1, hmode1, hnext1⟩ := remove_snd_spec s t id key hk r s₁ hrm
  have hk1 : s₁.keys_by_id id = some key := by rw [hkeys1]; exact hk
  refine ⟨s₁.set_state_with_id t v id, ?_, ?_, ?_, ?_, ?_⟩
  · simp [read_state_with_id, hrm, hr]
  · intro m t' k
    rw [Store.valAt_set_some s₁ t v id key hk1 m t' k, hval1 m t' k, hmode1]
    by_cases hc : m = s.mode ∧ t' = t ∧ k = key
    · obtain ⟨hm, ht, hkk⟩ := hc
      subst hm; subst ht; subst hkk
      simp [hv]
    · rw [if_neg hc, if_neg hc]
  · rw [Store.keys_set_state_some s₁ t v id key hk1, hkeys1]
  · rw [Store.mode_set_state, hmode1]
  · rw [Store.next_set_state_some s₁ t v id key hk1, hnext1]

theorem update_state_spec (s : Store) (t : TypeTag) (id : Id) (key : Key) (v : Val)
    (f : Val → Val) (hk : s.keys_by_id id = some key) (hv : s.valAt s.mode t key = some v) :
    ∃ s', update_state_with_id s t id f = some s' ∧
      (∀ m t' k, s'.valAt m t' k =
        if m = s.mode ∧ t' = t ∧ k = key then some (f v) else s.valAt m t' k) ∧
      s'.keys_by_id = s.keys_by_id ∧ s'.mode = s.mode ∧ s'.next_key = s.next_key := by
  rcases hrm : s.remove_state_with_id t id with ⟨r, s₁⟩
  have hr : r = some v := by
    have hf := Store.remove_fst s t id
    rw [hrm] at hf
    simpa [Store.valAtId_some_key s s.mode t id key hk, hv] using hf
  obtain ⟨hval1, hkeys1, hmode1, hnext1⟩ := remove_snd_spec s t id key hk r s₁ hrm
  have hk1 : s₁.keys_by_id id = some key := by rw [hkeys1]; exact hk
  refine ⟨s₁.set_state_with_id t (f v) id, ?_, ?_, ?_, ?_, ?_⟩
  · simp [update_state_with_id, hrm, hr]
  · intro m t' k
    rw [Store.valAt_set_some s₁ t (f v) id key hk1 m t' k, hval1 m t' k, hmode1]
    by_cases hc : m = s.mode ∧ t' = t ∧ k = key
    · rw [if_pos hc, if_pos hc]
    · rw [if_neg hc, if_neg hc, if_neg hc]
  · rw [Store.keys_set_state_some s₁ t (f v) id key hk1, hkeys1]
  · rw [Store.mode_set_state, hmode1]
  · rw [Store.next_set_state_some s₁ t (f v) id key hk1, hnext1]

theorem context_get_never_set (s : Store) (t : TypeTag) (id : Id)
    (h : s.state_exists_with_id t id = false) : Context.get s t id = none := by
  simp [Context.get, h]

theorem context_get_of_current (s : Store) (t : TypeTag) (id : Id) (key : Key) (v : Val)
    (hk : s.keys_by_id id = some key) (hv : s.valAt s.mode t key = some v) :
    ∃ s', Context.get s t id = some (v, s') ∧
      (∀ m t' k, s'.valAt m t' k = s.valAt m t' k) ∧
      s'.keys_by_id = s.keys_by_id ∧ s'.mode = s.mode ∧ s'.next_key = s.next_key := by
  have hv' : s.valAtId s.mode t id = some v := by
    rw [Store.valAtId_some_key s s.mode t id key hk]
    exact hv
  have hcur := Store.state_exists_true_of s s.mode t id v hv'
  have hex : s.state_exists_with_id t id = true := by
    simp [Store.state_exists_with_id, hcur]
  have hmk : s.state_marked_with_id t id = true := by
    simp [Store.state_marked_with_id, hcur]
  obtain ⟨s', hread, hval, hkeys, hmode, hnext⟩ := read_state_spec s t id key v hk hv
  refine ⟨s', ?_, hval, hkeys, hmode, hnext⟩
  simp [Context.get, hex, hmk, hread]

theorem context_get_of_stale (s : Store) (t : TypeTag) (id : Id) (key : Key) (v : Val)
    (hk : s.keys_by_id id = some key)
    (hcur : s.valAt s.mode t key = none) (hst : s.valAt s.mode.reverse t key = some v) :
    ∃ s', Context.get s t id = some (v, s') ∧
      (∀ m t' k, s'.valAt m t' k =
        if m = s.mode ∧ t' = t ∧ k = key then some v
        else if m = s.mode.reverse ∧ t' = t ∧ k = key then none
        else s.valAt m t' k) ∧
      s'.keys_by_id = s.keys_by_id ∧ s'.mode = s.mode ∧ s'.next_key = s.next_key := by
  have hcur' : s.valAtId s.mode t id = none := by
    rw [Store.valAtId_some_key s s.mode t id key hk]
    exact hcur
  have hst' : s.valAtId s.mode.reverse t id = some v := by
    rw [Store.valAtId_some_key s s.mode.reverse t id key hk]
    exact hst
  have hexc := Store.state_exists_false_of s s.mode t id hcur'
  have hexs := Store.state_exists_true_of s s.mode.reverse t id v hst'
  have hex : s.state_exists_with_id t id = true := by
    simp [Store.state_exists_with_id, hexs]
  have hmkd : s.state_marked_with_id t id = false := by
    simp [Store.state_marked_with_id, hexc, hexs]
  obtain ⟨s₁, hs₁, hval1, hkeys1, hmode1, hnext1⟩ := Store.mark_spec s t id key v hk hst
  have hk1 : s₁.keys_by_id id = some key := by rw [hkeys1]; exact hk
  have hv1 : s₁.valAt s₁.mode t key = some v := by
    rw [hmode1, hval1 s.mode t key]
    simp
  obtain ⟨s₂, hread, hval2, hkeys2, hmode2, hnext2⟩ := read_state_spec s₁ t id key v hk1 hv1
  refine ⟨s₂, ?_, ?_, ?_, ?_, ?_⟩
  · simp [Context.get, hex, hmkd, hs₁, hread]
  · intro m t' k
    rw [hval2 m t' k, hval1 m t' k]
  · rw [hkeys2, hkeys1]
  · rw [hmode2, hmode1]
  · rw [hnext2, hnext1]

theorem Store.valAtId_isSome_of_exists (s : Store) (m : Mode) (t : TypeTag) (id : Id)
    (h : s.state_exists m t id = true) : ∃ v, s.valAtId m t id = some v := by
  rw [Store.state_exists_eq] at h
  exact Option.isSome_iff_exists.mp h

theorem Store.valAtId_none_of_not_exists (s : Store) (m : Mode) (t : TypeTag) (id : Id)
    (h : s.state_exists m t id = false) : s.valAtId m t id = none := by
  rw [Store.state_exists_eq] at h
  cases hv : s.valAtId m t id with
  | none => rfl
  | some v =>
      rw [hv] at h
      exact absurd h (by simp)

theorem use_state_cases (s : Store) (t : TypeTag) (id : Id) (d : Val) (s₁ : Store) (b : Bool)
    (h : use_state s t id d = some (s₁, b)) :
    (s₁ = s ∧ b = false ∧ ∃ v, s.valAtId s.mode t id = some v) ∨
    (s₁ = s.set_state_with_id t d id ∧ b = true ∧ s.valAtId s.mode t id = none ∧
      s.valAtId s.mode.reverse t id = none) ∨
    (∃ key v, b = false ∧ s.keys_by_id id = some key ∧ s.valAt s.mode t key = none ∧
      s.valAt s.mode.reverse t key = some v ∧
      (∀ m t' k, s₁.valAt m t' k =
        if m = s.mode ∧ t' = t ∧ k = key then some v
        else if m = s.mode.reverse ∧ t' = t ∧ k = key then none
        else s.valAt m t' k) ∧
      s₁.keys_by_id = s.keys_by_id ∧ s₁.mode = s.mode ∧ s₁.next_key = s.next_key) := by
  cases hex : s.state_exists_with_id t id with
  | false =>
      right; left
      rw [Store.state_exists_with_id, Bool.or_eq_false_iff] at hex
      have hcur := Store.valAtId_none_of_not_exists s s.mode t id hex.1
      have hst := Store.valAtId_none_of_not_exists s s.mode.reverse t id hex.2
      have hu := use_state_of_absent s t id d hcur hst
      rw [hu] at h
      have hp := Option.some.inj h
      exact ⟨(congrArg Prod.fst hp).symm, (congrArg Prod.snd hp).symm, hcur, hst⟩
  | true =>
      cases hmk : s.state_marked_with_id t id with
      | true =>
          left
          have hcur : s.state_exists s.mode t id = true := by
            cases hc : s.state_exists s.mode t id with
            | true => rfl
            | false =>
                have hst : s.state_exists s.mode.reverse t id = true := by
                  rw [Store.state_exists_with_id, hc] at hex
                  simpa using hex
                rw [Store.state_marked_with_id, hc, hst] at hmk
                simp at hmk
          obtain ⟨v, hv⟩ := Store.valAtId_isSome_of_exists s s.mode t id hcur
          have hu := use_state_of_current s t id d v hv
          rw [hu] at h
          have hp := Option.some.inj h
          exact ⟨(congrArg Prod.fst hp).symm, (congrArg Prod.snd hp).symm, v, hv⟩
      | false =>
          right; right
          have hcurf : s.state_exists s.mode t id = false := by
            cases hc : s.state_exists s.mode t id with
            | false => rfl
            | true =>
                rw [Store.state_marked_with_id, hc] at hmk
                simp at hmk
          have hstt : s.state_exists s.mode.reverse t id = true := by
            cases hc : s.state_exists s.mode.reverse t id with
            | true => rfl
            | false =>
                rw [Store.state_marked_with_id, hcurf, hc] at hmk
                simp at hmk
          obtain ⟨v, hv⟩ := Store.valAtId_isSome_of_exists s s.mode.reverse t id hstt
          have hcurn := Store.valAtId_none_of_not_exists s s.mode t id hcurf
          cases hk : s.keys_by_id id with
          | none =>
              rw [Store.valAtId_none_key s s.mode.reverse t id hk] at hv
              exact absurd hv (by simp)
          | some key =>
              rw [Store.valAtId_some_key s s.mode.reverse t id key hk] at hv
              rw [Store.valAtId_some_key s s.mode t id key hk] at hcurn
              obtain ⟨s', hu, hval, hkeys, hmode, hnext⟩ :=
                use_state_of_stale s t id d key v hk hcurn hv
              rw [hu] at h
              have hp := Option.some.inj h
              have hs : s' = s₁ := congrArg Prod.fst hp
              have hb : b = false := (congrArg Prod.snd hp).symm
              subst hs
              exact ⟨key, v, hb, rfl, hcurn, hv, hval, hkeys, hmode, hnext⟩

theorem Store.WF_of_move (s s' : Store) (t : TypeTag) (key : Key) (v : Val) (hwf : s.WF)
    (hkey : key < s.next_key)
    (hval : ∀ m t' k, s'.valAt m t' k =
      if m = s.mode ∧ t' = t ∧ k = key then some v
      else if m = s.mode.reverse ∧ t' = t ∧ k = key then none
      else s.valAt m t' k)
    (hkeys : s'.keys_by_id = s.keys_by_id) (hnext : s'.next_key = s.next_key) : s'.WF := by
  obtain ⟨h1, h2, h3⟩ := hwf
  refine ⟨?_, ?_, ?_⟩
  · intro i k hk
    rw [hkeys] at hk
    rw [hnext]
    exact h1 i k hk
  · intro i₁ i₂ k hh₁ hh₂
    rw [hkeys] at hh₁ hh₂
    exact h2 i₁ i₂ k hh₁ hh₂
  · intro m t' k hle
    rw [hnext] at hle
    rw [hval m t' k]
    have hc1 : ¬(m = s.mode ∧ t' = t ∧ k = key) := by
      rintro ⟨-, -, hkn⟩
      rw [hkn] at hle
      exact absurd hkey (Nat.not_lt.mpr hle)
    rw [if_neg hc1]
    split_ifs with hc2
    · rfl
    · exact h3 m t' k hle

theorem valAtId_move_frame (s s' : Store) (t : TypeTag) (id : Id) (key : Key) (v : Val)
    (hwf : s.WF) (hk : s.keys_by_id id = some key)
    (hval : ∀ m t' k, s'.valAt m t' k =
      if m = s.mode ∧ t' = t ∧ k = key then some v
      else if m = s.mode.reverse ∧ t' = t ∧ k = key then none
      else s.valAt m t' k)
    (hkeys : s'.keys_by_id = s.keys_by_id)
    (m : Mode) (t₀ : TypeTag) (id₀ : Id) (hne : ¬(t₀ = t ∧ id₀ = id)) :
    s'.valAtId m t₀ id₀ = s.valAtId m t₀ id₀ := by
  cases hk₀ : s.keys_by_id id₀ with
  | none =>
      rw [Store.valAtId_none_key _ m t₀ id₀ (by rw [hkeys]; exact hk₀),
        Store.valAtId_none_key s m t₀ id₀ hk₀]
  | some k₀ =>
      rw [Store.valAtId_some_key _ m t₀ id₀ k₀ (by rw [hkeys]; exact hk₀), hval m t₀ k₀,
        Store.valAtId_some_key s m t₀ id₀ k₀ hk₀]
      obtain ⟨h1, h2, h3⟩ := hwf
      have hcond : ¬(t₀ = t ∧ k₀ = key) := by
        rintro ⟨ht, hkk⟩
        exact hne ⟨ht, h2 id₀ id key (hkk ▸ hk₀) hk⟩
      rw [if_neg (fun hc => hcond ⟨hc.2.1, hc.2.2⟩),
        if_neg (fun hc => hcond ⟨hc.2.1, hc.2.2⟩)]

theorem valAtId_move_current (s s' : Store) (t : TypeTag) (id : Id) (key : Key) (v : Val)
    (hk : s.keys_by_id id = some key)
    (hval : ∀ m t' k, s'.valAt m t' k =
      if m = s.mode ∧ t' = t ∧ k = key then some v
      else if m = s.mode.reverse ∧ t' = t ∧ k = key then none
      else s.valAt m t' k)
    (hkeys : s'.keys_by_id = s.keys_by_id) (hmode : s'.mode = s.mode) :
    s'.currentVal t id = some v := by
  rw [Store.currentVal, Store.valAtId_some_key s' s'.mode t id key (by rw [hkeys]; exact hk),
    hmode, hval s.mode t key]
  simp

theorem valAtId_point_frame (s s' : Store) (t : TypeTag) (id : Id) (key : Key) (w : Val)
    (hwf : s.WF) (hk : s.keys_by_id id = some key)
    (hval : ∀ m t' k, s'.valAt m t' k =
      if m = s.mode ∧ t' = t ∧ k = key then some w else s.valAt m t' k)
    (hkeys : s'.keys_by_id = s.keys_by_id)
    (m : Mode) (t₀ : TypeTag) (id₀ : Id) (hne : ¬(m = s.mode ∧ t₀ = t ∧ id₀ = id)) :
    s'.valAtId m t₀ id₀ = s.valAtId m t₀ id₀ := by
  cases hk₀ : s.keys_by_id id₀ with
  | none =>
      rw [Store.valAtId_none_key _ m t₀ id₀ (by rw [hkeys]; exact hk₀),
        Store.valAtId_none_key s m t₀ id₀ hk₀]
  | some k₀ =>
      rw [Store.valAtId_some_key _ m t₀ id₀ k₀ (by rw [hkeys]; exact hk₀), hval m t₀ k₀,
        Store.valAtId_some_key s m t₀ id₀ k₀ hk₀]
      obtain ⟨h1, h2, h3⟩ := hwf
      have hcond : ¬(m = s.mode ∧ t₀ = t ∧ k₀ = key) := by
        rintro ⟨hm, ht, hkk⟩
        exact hne ⟨hm, ht, h2 id₀ id key (hkk ▸ hk₀) hk⟩
      rw [if_neg hcond]

theorem Store.WF_of_congr (s s' : Store) (hwf : s.WF)
    (hval : ∀ m t k, s'.valAt m t k = s.valAt m t k)
    (hkeys : s'.keys_by_id = s.keys_by_id) (hnext : s'.next_key = s.next_key) : s'.WF := by
  obtain ⟨h1, h2, h3⟩ := hwf
  refine ⟨?_, ?_, ?_⟩
  · intro i k hk
    rw [hkeys] at hk
    rw [hnext]
    exact h1 i k hk
  · intro i₁ i₂ k hh₁ hh₂
    rw [hkeys] at hh₁ hh₂
    exact h2 i₁ i₂ k hh₁ hh₂
  · intro m t k hle
    rw [hnext] at hle
    rw [hval m t k]
    exact h3 m t k hle

theorem valAtId_of_congr (s s' : Store)
    (hval : ∀ m t k, s'.valAt m t k = s.valAt m t k)
    (hkeys : s'.keys_by_id = s.keys_by_id) (m : Mode) (t : TypeTag) (id : Id) :
    s'.valAtId m t id = s.valAtId m t id := by
  cases hk : s.keys_by_id id with
  | none =>
      rw [Store.valAtId_none_key _ m t id (by rw [hkeys]; exact hk),
        Store.valAtId_none_key s m t id hk]
  | some k =>
      rw [Store.valAtId_some_key _ m t id k (by rw [hkeys]; exact hk), hval m t k,
        Store.valAtId_some_key s m t id k hk]

theorem Store.WF_of_point (s s' : Store) (t : TypeTag) (key : Key) (w : Val) (hwf : s.WF)
    (hkey : key < s.next_key)
    (hval : ∀ m t' k, s'.valAt m t' k =
      if m = s.mode ∧ t' = t ∧ k = key then some w else s.valAt m t' k)
    (hkeys : s'.keys_by_id = s.keys_by_id) (hnext : s'.next_key = s.next_key) : s'.WF := by
  obtain ⟨h1, h2, h3⟩ := hwf
  refine ⟨?_, ?_, ?_⟩
  · intro i k hk
    rw [hkeys] at hk
    rw [hnext]
    exact h1 i k hk
  · intro i₁ i₂ k hh₁ hh₂
    rw [hkeys] at hh₁ hh₂
    exact h2 i₁ i₂ k hh₁ hh₂
  · intro m t' k hle
    rw [hnext] at hle
    rw [hval m t' k]
    have hc1 : ¬(m = s.mode ∧ t' = t ∧ k = key) := by
      rintro ⟨-, -, hkn⟩
      rw [hkn] at hle
      exact absurd hkey (Nat.not_lt.mpr hle)
    rw [if_neg hc1]
    exact h3 m t' k hle

theorem valAtId_point_current (s s' : Store) (t : TypeTag) (id : Id) (key : Key) (w : Val)
    (hk : s.keys_by_id id = some key)
    (hval : ∀ m t' k, s'.valAt m t' k =
      if m = s.mode ∧ t' = t ∧ k = key then some w else s.valAt m t' k)
    (hkeys : s'.keys_by_id = s.keys_by_id) (hmode : s'.mode = s.mode) :
    s'.currentVal t id = some w := by
  rw [Store.currentVal, Store.valAtId_some_key s' s'.mode t id key (by rw [hkeys]; exact hk),
    hmode, hval s.mode t key]
  simp

theorem read_state_some_spec (s : Store) (t : TypeTag) (id : Id) (w : Val) (s₂ : Store)
    (h : read_state_with_id s t id = some (w, s₂)) :
    ∃ key, s.keys_by_id id = some key ∧ s.valAt s.mode t key = some w ∧
      (∀ m t' k, s₂.valAt m t' k = s.valAt m t' k) ∧
      s₂.keys_by_id = s.keys_by_id ∧ s₂.mode = s.mode ∧ s₂.next_key = s.next_key := by
  cases hk : s.keys_by_id id with
  | none =>
      exfalso
      have hn := read_state_none s t id (Store.valAtId_none_key s s.mode t id hk)
      rw [hn] at h
      exact Option.noConfusion h
  | some key =>
      cases hv : s.valAt s.mode t key with
      | none =>
          exfalso
          have hn := read_state_none s t id
            (by rw [Store.valAtId_some_key s s.mode t id key hk]; exact hv)
          rw [hn] at h
          exact Option.noConfusion h
      | some v =>
          obtain ⟨s', hr, hval, hkeys, hmode, hnext⟩ := read_state_spec s t id key v hk hv
          rw [hr] at h
          have hp := Option.some.inj h
          have hw : v = w := congrArg Prod.fst hp
          have hs : s' = s₂ := congrArg Prod.snd hp
          subst hw
          subst hs
          exact ⟨key, rfl, hv, hval, hkeys, hmode, hnext⟩

theorem update_state_some_spec (s : Store) (t : TypeTag) (id : Id) (f : Val → Val) (s₂ : Store)
    (h : update_state_with_id s t id f = some s₂) :
    ∃ key v, s.keys_by_id id = some key ∧ s.valAt s.mode t key = some v ∧
      (∀ m t' k, s₂.valAt m t' k =
        if m = s.mode ∧ t' = t ∧ k = key then some (f v) else s.valAt m t' k) ∧
      s₂.keys_by_id = s.keys_by_id ∧ s₂.mode = s.mode ∧ s₂.next_key = s.next_key := by
  cases hk : s.keys_by_id id with
  | none =>
      exfalso
      have hn := update_state_none s t id f (Store.valAtId_none_key s s.mode t id hk)
      rw [hn] at h
      exact Option.noConfusion h
  | some key =>
      cases hv : s.valAt s.mode t key with
      | none =>
          exfalso
          have hn := update_state_none s t id f
            (by rw [Store.valAtId_some_key s s.mode t id key hk]; exact hv)
          rw [hn] at h
          exact Option.noConfusion h
      | some v =>
          obtain ⟨s', hr, hval, hkeys, hmode, hnext⟩ := update_state_spec s t id key v f hk hv
          rw [hr] at h
          have hs : s' = s₂ := Option.some.inj h
          subst hs
          exact ⟨key, v, rfl, hv, hval, hkeys, hmode, hnext⟩

theorem context_get_some_spec (s : Store) (t : TypeTag) (id : Id) (w : Val) (s₂ : Store)
    (h : Context.get s t id = some (w, s₂)) :
    ∃ key, s.keys_by_id id = some key ∧
      s₂.keys_by_id = s.keys_by_id ∧ s₂.mode = s.mode ∧ s₂.next_key = s.next_key ∧
      ((s.valAt s.mode t key = some w ∧
        (∀ m t' k, s₂.valAt m t' k = s.valAt m t' k)) ∨
       (s.valAt s.mode t key = none ∧ s.valAt s.mode.reverse t key = some w ∧
        (∀ m t' k, s₂.valAt m t' k =
          if m = s.mode ∧ t' = t ∧ k = key then some w
          else if m = s.mode.reverse ∧ t' = t ∧ k = key then none
          else s.valAt m t' k))) := by
  cases hk : s.keys_by_id id with
  | none =>
      exfalso
      have hex : s.state_exists_with_id t id = false := by
        rw [Store.state_exists_with_id,
          Store.state_exists_false_of s s.mode t id (Store.valAtId_none_key s s.mode t id hk),
          Store.state_exists_false_of s s.mode.reverse t id
            (Store.valAtId_none_key s s.mode.reverse t id hk)]
        rfl
      rw [context_get_never_set s t id hex] at h
      exact Option.noConfusion h
  | some key =>
      cases hcv : s.valAt s.mode t key with
      | some v =>
          obtain ⟨s', hg, hval, hkeys, hmode, hnext⟩ := context_get_of_current s t id key v hk hcv
          rw [hg] at h
          have hp := Option.some.inj h
          have hw : v = w := congrArg Prod.fst hp
          have hs : s' = s₂ := congrArg Prod.snd hp
          subst hw
          subst hs
          exact ⟨key, rfl, hkeys, hmode, hnext, Or.inl ⟨hcv, hval⟩⟩
      | none =>
          cases hsv : s.valAt s.mode.reverse t key with
          | none =>
              exfalso
              have hex : s.state_exists_with_id t id = false := by
                rw [Store.state_exists_with_id,
                  Store.state_exists_false_of s s.mode t id
                    (by rw [Store.valAtId_some_key s s.mode t id key hk]; exact hcv),
                  Store.state_exists_false_of s s.mode.reverse t id
                    (by rw [Store.valAtId_some_key s s.mode.reverse t id key hk]; exact hsv)]
                rfl
              rw [context_get_never_set s t id hex] at h
              exact Option.noConfusion h
          | some v =>
              obtain ⟨s', hg, hval, hkeys, hmode, hnext⟩ :=
                context_get_of_stale s t id key v hk hcv hsv
              rw [hg] at h
              have hp := Option.some.inj h
              have hw : v = w := congrArg Prod.fst hp
              have hs : s' = s₂ := congrArg Prod.snd hp
              subst hw
              subst hs
              exact ⟨key, rfl, hkeys, hmode, hnext, Or.inr ⟨hcv, hsv, hval⟩⟩

theorem WF_use_state (s : Store) (t : TypeTag) (id : Id) (d : Val) (s₁ : Store) (b : Bool)
    (hwf : s.WF) (h : use_state s t id d = some (s₁, b)) : s₁.WF := by
  rcases use_state_cases s t id d s₁ b h with ⟨rfl, -, -⟩ | ⟨rfl, -, -, -⟩ |
    ⟨key, v, -, hk, -, -, hval, hkeys, -, hnext⟩
  · exact hwf
  · exact Store.WF_set s t d id hwf
  · exact Store.WF_of_move s s₁ t key v hwf (hwf.1 id key hk) hval hkeys hnext

theorem apply_preserves (op : ApiOp) (s s' : Store) (hwf : s.WF) (h : op.apply s = some s') :
    s'.WF ∧
    (∀ t₀ id₀ v, s.currentVal t₀ id₀ = some v → ∃ w, s'.currentVal t₀ id₀ = some w) ∧
    (∀ t₀ id₀, ¬ op.touches t₀ id₀ → s.currentVal t₀ id₀ = none →
      s'.currentVal t₀ id₀ = none) := by
  cases op with
  | useSt t id d =>
      simp only [ApiOp.apply] at h
      cases hu : use_state s t id d with
      | none =>
          rw [hu] at h
          exact absurd h (by simp)
      | some p =>
          rcases p with ⟨s₁, b⟩
          rw [hu] at h
          simp at h
          subst h
          rcases use_state_cases s t id d s₁ b hu with ⟨rfl, -, -⟩ | ⟨rfl, -, -, -⟩ |
            ⟨key, v, -, hk, hcur, hst, hval, hkeys, hmode, hnext⟩
          · exact ⟨hwf, fun t₀ id₀ v hv => ⟨v, hv⟩, fun t₀ id₀ _ hn => hn⟩
          · refine ⟨Store.WF_set s t d id hwf, ?_, ?_⟩
            · intro t₀ id₀ v hv
              by_cases hpair : t₀ = t ∧ id₀ = id
              · obtain ⟨rfl, rfl⟩ := hpair
                exact ⟨d, Store.currentVal_set s t₀ d id₀⟩
              · refine ⟨v, ?_⟩
                rw [Store.currentVal] at hv ⊢
                rw [Store.mode_set_state,
                  Store.valAtId_set_frame s t d id hwf s.mode t₀ id₀
                    (by rintro ⟨-, ht, hid⟩; exact hpair ⟨ht, hid⟩)]
                exact hv
            · intro t₀ id₀ hnt hn
              simp only [ApiOp.touches, ApiOp.tag, ApiOp.ident] at hnt
              rw [Store.currentVal] at hn ⊢
              rw [Store.mode_set_state,
                Store.valAtId_set_frame s t d id hwf s.mode t₀ id₀
                  (by rintro ⟨-, ht, hid⟩; exact hnt ⟨ht.symm, hid.symm⟩)]
              exact hn
          · refine ⟨Store.WF_of_move s s₁ t key v hwf (hwf.1 id key hk) hval hkeys hnext,
              ?_, ?_⟩
            · intro t₀ id₀ w hv
              by_cases hpair : t₀ = t ∧ id₀ = id
              · obtain ⟨rfl, rfl⟩ := hpair
                exact ⟨v, valAtId_move_current s s₁ t₀ id₀ key v hk hval hkeys hmode⟩
              · refine ⟨w, ?_⟩
                rw [Store.currentVal] at hv ⊢
                rw [hmode, valAtId_move_frame s s₁ t id key v hwf hk hval hkeys s.mode t₀ id₀
                  hpair]
                exact hv
            · intro t₀ id₀ hnt hn
              simp only [ApiOp.touches, ApiOp.tag, ApiOp.ident] at hnt
              rw [Store.currentVal] at hn ⊢
              rw [hmode, valAtId_move_frame s s₁ t id key v hwf hk hval hkeys s.mode t₀ id₀
                (by rintro ⟨ht, hid⟩; exact hnt ⟨ht.symm, hid.symm⟩)]
              exact hn
  | localGet t id =>
      simp only [ApiOp.apply] at h
      cases hr : read_state_with_id s t id with
      | none =>
          rw [hr] at h
          exact absurd h (by simp)
      | some p =>
          rcases p with ⟨w, s₂⟩
          rw [hr] at h
          simp at h
          subst h
          obtain ⟨key, hk, hv, hval, hkeys, hmode, hnext⟩ := read_state_some_spec s t id w s₂ hr
          refine ⟨Store.WF_of_congr s s₂ hwf hval hkeys hnext, ?_, ?_⟩
          · intro t₀ id₀ v hv₀
            refine ⟨v, ?_⟩
            rw [Store.currentVal] at hv₀ ⊢
            rw [hmode, valAtId_of_congr s s₂ hval hkeys s.mode t₀ id₀]
            exact hv₀
          · intro t₀ id₀ _ hn
            rw [Store.currentVal] at hn ⊢
            rw [hmode, valAtId_of_congr s s₂ hval hkeys s.mode t₀ id₀]
            exact hn
  | localSet t id f =>
      simp only [ApiOp.apply] at h
      obtain ⟨key, v, hk, hv, hval, hkeys, hmode, hnext⟩ := update_state_some_spec s t id f s' h
      refine ⟨Store.WF_of_point s s' t key (f v) hwf (hwf.1 id key hk) hval hkeys hnext,
        ?_, ?_⟩
      · intro t₀ id₀ w hv₀
        by_cases hpair : t₀ = t ∧ id₀ = id
        · obtain ⟨rfl, rfl⟩ := hpair
          exact ⟨f v, valAtId_point_current s s' t₀ id₀ key (f v) hk hval hkeys hmode⟩
        · refine ⟨w, ?_⟩
          rw [Store.currentVal] at hv₀ ⊢
          rw [hmode, valAtId_point_frame s s' t id key (f v) hwf hk hval hkeys s.mode t₀ id₀
            (by rintro ⟨-, ht, hid⟩; exact hpair ⟨ht, hid⟩)]
          exact hv₀
      · intro t₀ id₀ hnt hn
        simp only [ApiOp.touches, ApiOp.tag, ApiOp.ident] at hnt
        rw [Store.currentVal] at hn ⊢
        rw [hmode, valAtId_point_frame s s' t id key (f v) hwf hk hval hkeys s.mode t₀ id₀
          (by rintro ⟨-, ht, hid⟩; exact hnt ⟨ht.symm, hid.symm⟩)]
        exact hn
  | ctxSet t id v =>
      simp only [ApiOp.apply] at h
      have hs : s.set_state_with_id t v id = s' := Option.some.inj h
      subst hs
      refine ⟨Store.WF_set s t v id hwf, ?_, ?_⟩
      · intro t₀ id₀ w hv
        by_cases hpair : t₀ = t ∧ id₀ = id
        · obtain ⟨rfl, rfl⟩ := hpair
          exact ⟨v, Store.currentVal_set s t₀ v id₀⟩
        · refine ⟨w, ?_⟩
          rw [Store.currentVal] at hv ⊢
          rw [Store.mode_set_state,
            Store.valAtId_set_frame s t v id hwf s.mode t₀ id₀
              (by rintro ⟨-, ht, hid⟩; exact hpair ⟨ht, hid⟩)]
          exact hv
      · intro t₀ id₀ hnt hn
        simp only [ApiOp.touches, ApiOp.tag, ApiOp.ident] at hnt
        rw [Store.currentVal] at hn ⊢
        rw [Store.mode_set_state,
          Store.valAtId_set_frame s t v id hwf s.mode t₀ id₀
            (by rintro ⟨-, ht, hid⟩; exact hnt ⟨ht.symm, hid.symm⟩)]
        exact hn
  | ctxGet t id =>
      simp only [ApiOp.apply] at h
      cases hg : Context.get s t id with
      | none =>
          rw [hg] at h
          exact absurd h (by simp)
      | some p =>
          rcases p with ⟨w, s₂⟩
          rw [hg] at h
          simp at h
          subst h
          obtain ⟨key, hk, hkeys, hmode, hnext, hcase⟩ := context_get_some_spec s t id w s₂ hg
          rcases hcase with ⟨hcv, hval⟩ | ⟨hcv, hsv, hval⟩
          · refine ⟨Store.WF_of_congr s s₂ hwf hval hkeys hnext, ?_, ?_⟩
            · intro t₀ id₀ v hv₀
              refine ⟨v, ?_⟩
              rw [Store.currentVal] at hv₀ ⊢
              rw [hmode, valAtId_of_congr s s₂ hval hkeys s.mode t₀ id₀]
              exact hv₀
            · intro t₀ id₀ _ hn
              rw [Store.currentVal] at hn ⊢
              rw [hmode, valAtId_of_congr s s₂ hval hkeys s.mode t₀ id₀]
              exact hn
          · refine ⟨Store.WF_of_move s s₂ t key w hwf (hwf.1 id key hk) hval hkeys hnext,
              ?_, ?_⟩
            · intro t₀ id₀ v hv₀
              by_cases hpair : t₀ = t ∧ id₀ = id
              · obtain ⟨rfl, rfl⟩ := hpair
                exact ⟨w, valAtId_move_current s s₂ t₀ id₀ key w hk hval hkeys hmode⟩
              · refine ⟨v, ?_⟩
                rw [Store.currentVal] at hv₀ ⊢
                rw [hmode, valAtId_move_frame s s₂ t id key w hwf hk hval hkeys s.mode t₀ id₀
                  hpair]
                exact hv₀
            · intro t₀ id₀ hnt hn
              simp only [ApiOp.touches, ApiOp.tag, ApiOp.ident] at hnt
              rw [Store.currentVal] at hn ⊢
              rw [hmode, valAtId_move_frame s s₂ t id key w hwf hk hval hkeys s.mode t₀ id₀
                (by rintro ⟨ht, hid⟩; exact hnt ⟨ht.symm, hid.symm⟩)]
              exact hn

theorem applyOps_untouched (ops : List ApiOp) (t : TypeTag) (id : Id) :
    ∀ s s₁, s.WF → s.currentVal t id = none → (∀ op ∈ ops, ¬ op.touches t id) →
      applyOps ops s = some s₁ → s₁.WF ∧ s₁.currentVal t id = none := by
  induction ops with
  | nil =>
      intro s s₁ hwf hcur _ hrun
      obtain rfl := Option.some.inj hrun
      exact ⟨hwf, hcur⟩
  | cons op ops ih =>
      intro s s₁ hwf hcur hnt hrun
      cases happ : op.apply s with
      | none =>
          simp only [applyOps] at hrun
          rw [happ] at hrun
          exact absurd hrun (by simp)
      | some s₂ =>
          simp only [applyOps] at hrun
          rw [happ] at hrun
          simp at hrun
          obtain ⟨hwf₂, -, hnone₂⟩ := apply_preserves op s s₂ hwf happ
          exact ih s₂ s₁ hwf₂ (hnone₂ t id (hnt op (by simp)) hcur)
            (fun o ho => hnt o (by simp [ho])) hrun

theorem applyOps_preserves_some (ops : List ApiOp) (t : TypeTag) (id : Id) :
    ∀ s s₁ v, s.WF → s.currentVal t id = some v → applyOps ops s = some s₁ →
      s₁.WF ∧ ∃ w, s₁.currentVal t id = some w := by
  induction ops with
  | nil =>
      intro s s₁ v hwf hcur hrun
      obtain rfl := Option.some.inj hrun
      exact ⟨hwf, v, hcur⟩
  | cons op ops ih =>
      intro s s₁ v hwf hcur hrun
      cases happ : op.apply s with
      | none =>
          simp only [applyOps] at hrun
          rw [happ] at hrun
          exact absurd hrun (by simp)
      | some s₂ =>
          simp only [applyOps] at hrun
          rw [happ] at hrun
          simp at hrun
          obtain ⟨hwf₂, hsome₂, -⟩ := apply_preserves op s s₂ hwf happ
          obtain ⟨w, hw⟩ := hsome₂ t id v hcur
          exact ih s₂ s₁ w hwf₂ hw hrun

theorem passRound_spec (s : Store) (t : TypeTag) (id : Id) (d : Val) (v : Val)
    (hwf : s.WF) (hv : s.currentVal t id = some v) :
    ∃ s', passRound t id d s = some s' ∧ s'.WF ∧ s'.currentVal t id = some v := by
  have hswf := Store.WF_sweep s hwf
  cases hk : s.keys_by_id id with
  | none =>
      rw [Store.currentVal, Store.valAtId_none_key s s.mode t id hk] at hv
      exact absurd hv (by simp)
  | some key =>
      rw [Store.currentVal, Store.valAtId_some_key s s.mode t id key hk] at hv
      have hk' : (s.sweep).keys_by_id id = some key := by
        rw [Store.keys_sweep]
        exact hk
      have hstale : (s.sweep).valAt (s.sweep).mode.reverse t key = some v := by
        rw [Store.mode_sweep, Mode.reverse_reverse, Store.valAt_sweep, if_pos rfl]
        exact hv
      have hcurn : (s.sweep).valAt (s.sweep).mode t key = none := by
        rw [Store.mode_sweep, Store.valAt_sweep, if_neg (Mode.reverse_ne s.mode)]
      obtain ⟨s', hu, hval, hkeys, hmode, hnext⟩ :=
        use_state_of_stale (s.sweep) t id d key v hk' hcurn hstale
      refine ⟨s', ?_, ?_, ?_⟩
      · simp [passRound, hu]
      · exact Store.WF_of_move (s.sweep) s' t key v hswf (hswf.1 id key hk') hval hkeys hnext
      · exact valAtId_move_current (s.sweep) s' t id key v hk' hval hkeys hmode

theorem use_state_post (s : Store) (t : TypeTag) (id : Id) (d : Val) (s₁ : Store) (b : Bool)
    (h : use_state s t id d = some (s₁, b)) : ∃ v, s₁.currentVal t id = some v := by
  rcases use_state_cases s t id d s₁ b h with ⟨rfl, -, v, hv⟩ | ⟨rfl, -, -, -⟩ |
    ⟨key, v, -, hk, -, -, hval, hkeys, hmode, -⟩
  · exact ⟨v, hv⟩
  · exact ⟨d, Store.currentVal_set s t d id⟩
  · exact ⟨v, valAtId_move_current s s₁ t id key v hk hval hkeys hmode⟩

theorem read_state_total (s : Store) (t : TypeTag) (id : Id) (v : Val)
    (h : s.currentVal t id = some v) : ∃ s', read_state_with_id s t id = some (v, s') := by
  cases hk : s.keys_by_id id with
  | none =>
      rw [Store.currentVal, Store.valAtId_none_key s s.mode t id hk] at h
      exact absurd h (by simp)
  | some key =>
      rw [Store.currentVal, Store.valAtId_some_key s s.mode t id key hk] at h
      obtain ⟨s', hr, -, -, -, -⟩ := read_state_spec s t id key v hk h
      exact ⟨s', hr⟩

theorem update_state_total (s : Store) (t : TypeTag) (id : Id) (v : Val) (f : Val → Val)
    (h : s.currentVal t id = some v) : ∃ s', update_state_with_id s t id f = some s' := by
  cases hk : s.keys_by_id id with
  | none =>
      rw [Store.currentVal, Store.valAtId_none_key s s.mode t id hk] at h
      exact absurd h (by simp)
  | some key =>
      rw [Store.currentVal, Store.valAtId_some_key s s.mode t id key hk] at h
      obtain ⟨s', hr, -, -, -, -⟩ := update_state_spec s t id key v f hk h
      exact ⟨s', hr⟩

/-- C1 (Sweep reclamation): for every identity `id` and type `t`, if a value
exists in either generation at the end of pass N, and no caller-visible
operation of pass N+1 touches the pair `(id, t)`, then after the `sweep()`
call ending pass N+1 (the second sweep), `exists<T>(id)` is false — the
value has been reclaimed. -/
theorem C1_sweep_reclamation (s : Store) (t : TypeTag) (id : Id) (ops : List ApiOp)
    (s₁ : Store) (hwf : s.WF) (hex : s.state_exists_with_id t id = true)
    (huntouched : ∀ op ∈ ops, ¬ op.touches t id)
    (hrun : applyOps ops (Store.sweep s) = some s₁) :
    (Store.sweep s₁).state_exists_with_id t id = false := by
  have hbase : (Store.sweep s).currentVal t id = none := by
    rw [Store.currentVal, Store.mode_sweep, Store.valAtId_sweep,
      if_neg (Mode.reverse_ne s.mode)]
  obtain ⟨hwf₁, hcur₁⟩ := applyOps_untouched ops t id (Store.sweep s) s₁
    (Store.WF_sweep s hwf) hbase huntouched hrun
  have hc : (Store.sweep s₁).valAtId (Store.sweep s₁).mode t id = none := by
    rw [Store.mode_sweep, Store.valAtId_sweep, if_neg (Mode.reverse_ne s₁.mode)]
  have hs : (Store.sweep s₁).valAtId (Store.sweep s₁).mode.reverse t id = none := by
    rw [Store.mode_sweep, Mode.reverse_reverse, Store.valAtId_sweep, if_pos rfl]
    exact hcur₁
  rw [Store.state_exists_with_id, Store.state_exists_false_of _ _ t id hc,
    Store.state_exists_false_of _ _ t id hs]
  rfl

/-- C1 witness: a value set for a position in pass N exists before the first
sweep, and after two sweeps with an empty pass N+1 in between it is gone. -/
theorem C1_witness :
    ((Store.new.set_state_with_id 0 5 (Id.pos 0)).state_exists_with_id 0 (Id.pos 0) = true) ∧
    (Store.sweep (Store.sweep (Store.new.set_state_with_id 0 5 (Id.pos 0)))).state_exists_with_id
      0 (Id.pos 0) = false :=
  ⟨by decide,
    C1_sweep_reclamation (Store.new.set_state_with_id 0 5 (Id.pos 0)) 0 (Id.pos 0) []
      (Store.sweep (Store.new.set_state_with_id 0 5 (Id.pos 0)))
      (Store.WF_set Store.new 0 5 (Id.pos 0) Store.WF_new) (by decide)
      (fun op hop => absurd hop (List.not_mem_nil op)) rfl⟩

/-- C2 (Sweep retention and fetch-or-create idempotence): a second
`use_state` for the same identity/type later in the same pass leaves the
store unchanged and does not invoke the factory (`false` flag); and an
identity whose value is current and that is accessed once per pass keeps
that same value across arbitrarily many `sweep()` calls, no access ever
re-invoking the factory (`passes` returns `none` on any factory
invocation). -/
theorem C2_retention_idempotence (s : Store) (t : TypeTag) (id : Id) (d d' : Val) :
    (∀ s₁ b, use_state s t id d = some (s₁, b) → use_state s₁ t id d' = some (s₁, false)) ∧
    (∀ v n, s.WF → s.currentVal t id = some v →
      ∃ s', passes t id d n s = some s' ∧ s'.currentVal t id = some v) := by
  constructor
  · intro s₁ b h
    obtain ⟨v, hv⟩ := use_state_post s t id d s₁ b h
    exact use_state_of_current s₁ t id d' v hv
  · intro v n
    induction n generalizing s with
    | zero =>
        intro hwf hv
        exact ⟨s, rfl, hv⟩
    | succ n ih =>
        intro hwf hv
        obtain ⟨s', hround, hwf', hv'⟩ := passRound_spec s t id d v hwf hv
        obtain ⟨s'', hrec, hv''⟩ := ih s' hwf' hv'
        refine ⟨s'', ?_, hv''⟩
        simp only [passes]
        rw [hround]
        simpa using hrec

/-- C2 witness: a freshly set value survives two sweep/access rounds
unchanged, no factory invocation occurring. -/
theorem C2_witness :
    ((Store.new.set_state_with_id 0 5 (Id.pos 0)).currentVal 0 (Id.pos 0) = some 5) ∧
    (∃ s', passes 0 (Id.pos 0) 9 2 (Store.new.set_state_with_id 0 5 (Id.pos 0)) = some s' ∧
      s'.currentVal 0 (Id.pos 0) = some 5) :=
  ⟨rfl,
    (C2_retention_idempotence (Store.new.set_state_with_id 0 5 (Id.pos 0)) 0 (Id.pos 0) 9 9).2
      5 2 (Store.WF_set Store.new 0 5 (Id.pos 0) Store.WF_new) rfl⟩

/-- C3 (Handle access safety): after `use_state` returns a handle, and after
any successful sequence of caller-visible API operations later in the same
pass (no sweep in between), a value for the handle's identity/type exists in
the current generation, so `LocalState::get` and `LocalState::set` both
succeed — the `"State does not exist."` panic branch is unreachable. -/
theorem C3_handle_access_safety (s : Store) (t : TypeTag) (id : Id) (d : Val)
    (s₁ : Store) (b : Bool) (ops : List ApiOp) (s₂ : Store)
    (hwf : s.WF) (hus : use_state s t id d = some (s₁, b))
    (hrun : applyOps ops s₁ = some s₂) :
    (∃ v, s₂.currentVal t id = some v) ∧
    (∃ v s₃, read_state_with_id s₂ t id = some (v, s₃)) ∧
    (∀ f, ∃ s₃, update_state_with_id s₂ t id f = some s₃) := by
  obtain ⟨v₁, hv₁⟩ := use_state_post s t id d s₁ b hus
  have hwf₁ := WF_use_state s t id d s₁ b hwf hus
  obtain ⟨hwf₂, w, hw⟩ := applyOps_preserves_some ops t id s₁ s₂ v₁ hwf₁ hv₁ hrun
  refine ⟨⟨w, hw⟩, ?_, ?_⟩
  · obtain ⟨s₃, hr⟩ := read_state_total s₂ t id w hw
    exact ⟨w, s₃, hr⟩
  · intro f
    exact update_state_total s₂ t id w f hw

/-- C3 witness: a handle freshly created by `use_state` on the empty store
can immediately be read and updated. -/
theorem C3_witness :
    (use_state Store.new 0 (Id.pos 0) 7 =
      some (Store.new.set_state_with_id 0 7 (Id.pos 0), true)) ∧
    ((∃ v, (Store.new.set_state_with_id 0 7 (Id.pos 0)).currentVal 0 (Id.pos 0) = some v) ∧
     (∃ v s₃, read_state_with_id (Store.new.set_state_with_id 0 7 (Id.pos 0)) 0 (Id.pos 0) =
        some (v, s₃)) ∧
     (∀ f, ∃ s₃, update_state_with_id (Store.new.set_state_with_id 0 7 (Id.pos 0)) 0 (Id.pos 0)
        f = some s₃)) :=
  ⟨rfl, C3_handle_access_safety Store.new 0 (Id.pos 0) 7
    (Store.new.set_state_with_id 0 7 (Id.pos 0)) true []
    (Store.new.set_state_with_id 0 7 (Id.pos 0)) Store.WF_new rfl rfl⟩

/-- C4 counterexample: on the empty store and an identity with no slot key,
the precondition of `mark` fails (no value of the type exists in the stale
generation), yet `mark_state_with_id` silently no-ops — it returns the
unchanged store instead of failing loudly, refuting the claim as stated. -/
theorem C4_counterexample :
    ¬(ExistsInGen Store.new Store.new.mode.reverse 0 (Id.pos 0) ∧
      ¬ ExistsInGen Store.new Store.new.mode 0 (Id.pos 0)) ∧
    Store.new.mark_state_with_id 0 (Id.pos 0) = some Store.new := by
  constructor
  · rintro ⟨⟨k, tbl, w, hk, -, -⟩, -⟩
    exact Option.noConfusion hk
  · rfl

/-- C4 (amended): `mark<T>(id)` fails loudly (the `unwrap` panic, modelled
as `none`) iff `id` has an allocated slot key and no value of type `T` for
`id` exists in the stale generation; when `id` has no slot key at all the
call silently no-ops (returns the store unchanged) instead of failing, and
when a stale value exists the move proceeds without failing even if a
current-generation value would be overwritten. -/
theorem C4_mark_failure_characterization (s : Store) (t : TypeTag) (id : Id) :
    (s.mark_state_with_id t id = none ↔
      (∃ k, s.keys_by_id id = some k) ∧ ¬ ExistsInGen s s.mode.reverse t id) ∧
    (s.keys_by_id id = none → s.mark_state_with_id t id = some s) := by
  constructor
  · rw [Store.mark_isNone_iff]
    constructor
    · rintro ⟨k, hk, hv⟩
      refine ⟨⟨k, hk⟩, ?_⟩
      rw [existsInGen_iff, Store.state_exists_eq, Store.valAtId_some_key s _ t id k hk, hv]
      simp
    · rintro ⟨⟨k, hk⟩, hne⟩
      refine ⟨k, hk, ?_⟩
      rw [existsInGen_iff, Store.state_exists_eq,
        Store.valAtId_some_key s _ t id k hk] at hne
      cases hv : s.valAt s.mode.reverse t k with
      | none => rfl
      | some w =>
          rw [hv] at hne
          simp at hne
  · exact Store.mark_of_none_key s t id

/-- C4 witness: the amended characterization applied to the empty store: an
identity with no slot key makes `mark` a silent no-op. -/
theorem C4_witness :
    (Store.new.keys_by_id (Id.pos 0) = none) ∧
    Store.new.mark_state_with_id 0 (Id.pos 0) = some Store.new :=
  ⟨rfl, (C4_mark_failure_characterization Store.new 0 (Id.pos 0)).2 rfl⟩

/-- C5 (is_marked semantics): `is_marked<T>(id)` is true iff a value of the
type exists for `id` in the current generation or no value exists for `id`
in the stale generation; in particular a brand-new identity (no value in
either generation) is reported as already marked.  The query is a pure
function of the store by construction. -/
theorem C5_is_marked_semantics (s : Store) (t : TypeTag) (id : Id) :
    (s.state_marked_with_id t id = true ↔
      (ExistsInGen s s.mode t id ∨ ¬ ExistsInGen s s.mode.reverse t id)) ∧
    (s.state_exists_with_id t id = false → s.state_marked_with_id t id = true) := by
  constructor
  · rw [existsInGen_iff, existsInGen_iff]
    cases hc : s.state_exists s.mode t id <;>
      cases hst : s.state_exists s.mode.reverse t id <;>
        simp [Store.state_marked_with_id, hc, hst]
  · intro h
    rw [Store.state_exists_with_id, Bool.or_eq_false_iff] at h
    rw [Store.state_marked_with_id, h.2]
    simp

/-- C5 witness: on the empty store a brand-new identity is reported as
already marked. -/
theorem C5_witness :
    (Store.new.state_exists_with_id 0 (Id.pos 0) = false) ∧
    Store.new.state_marked_with_id 0 (Id.pos 0) = true :=
  ⟨by decide, (C5_is_marked_semantics Store.new 0 (Id.pos 0)).2 (by decide)⟩

/-- C6 (Sweep frame): each `sweep()` clears exactly the stale generation's
data map (all of its typed tables), swaps the current/stale roles, and
leaves the previously-current generation's data map, the identity→slot-key
index, the id slot map and the key counter unchanged.  The function is
total, so the call completes on every store, including one whose stale
generation holds zero entries. -/
theorem C6_sweep_frame (s : Store) :
    (s.sweep).mode = s.mode.reverse ∧
    (s.sweep).get_datamap s.mode.reverse = DataMap.emptyMap ∧
    (s.sweep).get_datamap s.mode = s.get_datamap s.mode ∧
    (s.sweep).keys_by_id = s.keys_by_id ∧
    (s.sweep).ids = s.ids ∧
    (s.sweep).next_key = s.next_key := by
  refine ⟨Store.mode_sweep s, ?_, ?_, Store.keys_sweep s, Store.ids_sweep s,
    Store.next_sweep s⟩
  · cases hm : s.mode <;> simp [Store.sweep, hm, Mode.reverse, Store.get_datamap]
  · cases hm : s.mode <;> simp [Store.sweep, hm, Mode.reverse, Store.get_datamap]

/-- C7 (Context misuse): `Context::get` on a context whose identity has no
value in either generation (never `set`) panics ("Attempted to get data from
a context which was never set."), modelled as `none` — never a silent
default value. -/
theorem C7_context_never_set (s : Store) (t : TypeTag) (id : Id)
    (h : s.state_exists_with_id t id = false) :
    Context.get s t id = none :=
  context_get_never_set s t id h

/-- C7 witness: reading a never-set context on the empty store panics. -/
theorem C7_witness :
    (Store.new.state_exists_with_id 0 (Id.ctx 0) = false) ∧
    Context.get Store.new 0 (Id.ctx 0) = none :=
  ⟨by decide, C7_context_never_set Store.new 0 (Id.ctx 0) (by decide)⟩

/-- C8 (Context sharing): after `Context::set(v)` with no intervening set,
two consecutive `Context::get` calls, and a further `Context::get` in the
next pass (after a `sweep`), all observe the same shared cell address; the
cell holds `v`, and an interior mutation through the shared cell is visible
to any other holder of the same address. -/
theorem C8_context_sharing (s : Store) (h : RcHeap) (t : TypeTag) (id : Id) (v : Val) :
    ∃ p s₂ s₃ s₄,
      Context.get (Context.set s h t id v).1 t id = some (p, s₂) ∧
      Context.get s₂ t id = some (p, s₃) ∧
      Context.get (Store.sweep s₂) t id = some (p, s₄) ∧
      ((Context.set s h t id v).2).read p = some v ∧
      (∀ w, (((Context.set s h t id v).2).write p w).read p = some w) := by
  have hcur : (s.set_state_with_id t h.next id).currentVal t id = some h.next :=
    Store.currentVal_set s t h.next id
  cases hk : (s.set_state_with_id t h.next id).keys_by_id id with
  | none =>
      rw [Store.currentVal, Store.valAtId_none_key _ _ t id hk] at hcur
      exact absurd hcur (by simp)
  | some key =>
      rw [Store.currentVal, Store.valAtId_some_key _ _ t id key hk] at hcur
      obtain ⟨s₂, hg₁, hval₂, hkeys₂, hmode₂, hnext₂⟩ :=
        context_get_of_current (s.set_state_with_id t h.next id) t id key h.next hk hcur
      have hk₂ : s₂.keys_by_id id = some key := by
        rw [hkeys₂]
        exact hk
      have hcur₂ : s₂.valAt s₂.mode t key = some h.next := by
        rw [hmode₂, hval₂]
        exact hcur
      obtain ⟨s₃, hg₂, hval₃, hkeys₃, hmode₃, hnext₃⟩ :=
        context_get_of_current s₂ t id key h.next hk₂ hcur₂
      have hk₄ : (s₂.sweep).keys_by_id id = some key := by
        rw [Store.keys_sweep]
        exact hk₂
      have hsw_cur : (s₂.sweep).valAt (s₂.sweep).mode t key = none := by
        rw [Store.mode_sweep, Store.valAt_sweep, if_neg (Mode.reverse_ne s₂.mode)]
      have hsw_st : (s₂.sweep).valAt (s₂.sweep).mode.reverse t key = some h.next := by
        rw [Store.mode_sweep, Mode.reverse_reverse, Store.valAt_sweep, if_pos rfl]
        exact hcur₂
      obtain ⟨s₄, hg₃, -, -, -, -⟩ :=
        context_get_of_stale (s₂.sweep) t id key h.next hk₄ hsw_cur hsw_st
      refine ⟨h.next, s₂, s₃, s₄, hg₁, hg₂, hg₃, ?_, ?_⟩
      · simp [Context.set, RcHeap.alloc, RcHeap.read]
      · intro w
        simp [Context.set, RcHeap.alloc, RcHeap.read, RcHeap.write]

/-- C9 (Context identity allocation): `create_context` increments the
process-wide counter by exactly one, derives the context's root-scoped
identity from the counter value read before the increment, and distinct
counter values yield distinct identities (per the identity provider
contract, slot keys disambiguate), so no two `create_context` results share
an identity. -/
theorem C9_create_context (c₁ c₂ : Nat) :
    (create_context c₁).2 = c₁ + 1 ∧
    c₁ < (create_context c₁).2 ∧
    (create_context c₁).1 = Id.in_context c₁ ∧
    (c₁ ≠ c₂ → (create_context c₁).1 ≠ (create_context c₂).1) := by
  refine ⟨rfl, Nat.lt_succ_self c₁, rfl, ?_⟩
  intro hne heq
  simp [create_context, Id.in_context] at heq
  exact hne heq

/-- C9 witness: the first two context allocations advance the counter and
get distinct identities. -/
theorem C9_witness :
    (0 ≠ 1) ∧ (create_context 0).2 = 0 + 1 ∧
    (create_context 0).1 ≠ (create_context 1).1 :=
  ⟨by decide, (C9_create_context 0 1).1, (C9_create_context 0 1).2.2.2 (by decide)⟩

/-- C10 (Type isolation): every store operation performed at type `t` —
`set`, `mark`, `take`, and the `use_state` / `LocalState` / `Context`
operations built on them — leaves the stored value of any other type `t'`
unchanged for every identity and in both generations. -/
theorem C10_type_isolation (s : Store) (t t' : TypeTag) (id id' : Id) (m : Mode)
    (v d : Val) (f : Val → Val) (hne : t' ≠ t) (hwf : s.WF) :
    ((s.set_state_with_id t v id).valAtId m t' id' = s.valAtId m t' id') ∧
    (∀ s₂, s.mark_state_with_id t id = some s₂ → s₂.valAtId m t' id' = s.valAtId m t' id') ∧
    (((s.remove_state_with_id t id).2).valAtId m t' id' = s.valAtId m t' id') ∧
    (∀ s₂ b, use_state s t id d = some (s₂, b) →
      s₂.valAtId m t' id' = s.valAtId m t' id') ∧
    (∀ w s₂, read_state_with_id s t id = some (w, s₂) →
      s₂.valAtId m t' id' = s.valAtId m t' id') ∧
    (∀ s₂, update_state_with_id s t id f = some s₂ →
      s₂.valAtId m t' id' = s.valAtId m t' id') ∧
    (∀ w s₂, Context.get s t id = some (w, s₂) →
      s₂.valAtId m t' id' = s.valAtId m t' id') := by
  refine ⟨?_, ?_, ?_, ?_, ?_, ?_, ?_⟩
  · exact Store.valAtId_set_frame s t v id hwf m t' id' (fun hc => hne hc.2.1)
  · intro s₂ hmk
    rcases Store.mark_some_spec s t id s₂ hmk with ⟨-, rfl⟩ |
      ⟨key, w, hk, hv, hval, hkeys, -, -⟩
    · rfl
    · exact valAtId_move_frame s s₂ t id key w hwf hk hval hkeys m t' id'
        (fun hc => hne hc.1)
  · exact Store.valAtId_remove_frame s t id hwf m t' id' (fun hc => hne hc.2.1)
  · intro s₂ b hu
    rcases use_state_cases s t id d s₂ b hu with ⟨rfl, -, -⟩ | ⟨rfl, -, -, -⟩ |
      ⟨key, w, -, hk, -, -, hval, hkeys, -, -⟩
    · rfl
    · exact Store.valAtId_set_frame s t d id hwf m t' id' (fun hc => hne hc.2.1)
    · exact valAtId_move_frame s s₂ t id key w hwf hk hval hkeys m t' id'
        (fun hc => hne hc.1)
  · intro w s₂ hr
    obtain ⟨key, hk, hv, hval, hkeys, -, -⟩ := read_state_some_spec s t id w s₂ hr
    exact valAtId_of_congr s s₂ hval hkeys m t' id'
  · intro s₂ hu
    obtain ⟨key, w, hk, hv, hval, hkeys, -, -⟩ := update_state_some_spec s t id f s₂ hu
    exact valAtId_point_frame s s₂ t id key (f w) hwf hk hval hkeys m t' id'
      (fun hc => hne hc.2.1)
  · intro w s₂ hg
    obtain ⟨key, hk, hkeys, -, -, hcase⟩ := context_get_some_spec s t id w s₂ hg
    rcases hcase with ⟨-, hval⟩ | ⟨-, -, hval⟩
    · exact valAtId_of_congr s s₂ hval hkeys m t' id'
    · exact valAtId_move_frame s s₂ t id key w hwf hk hval hkeys m t' id'
        (fun hc => hne hc.1)

/-- C10 witness: a `set` at type 0 leaves the (empty) slot of type 1
unchanged on the empty store. -/
theorem C10_witness :
    (1 ≠ 0) ∧
    ((Store.new.set_state_with_id 0 5 (Id.pos 0)).valAtId Mode.A 1 (Id.pos 1) =
      Store.new.valAtId Mode.A 1 (Id.pos 1)) :=
  ⟨by decide, (C10_type_isolation Store.new 0 1 (Id.pos 0) (Id.pos 1) Mode.A 5 5
    (fun x => x) (by decide) Store.WF_new).1⟩

end EasyHooks
